import Mathlib

/-!
Verification of the graph-to-code compiler of CREATIVE_AI_LITE
(`src/utils/pipelineToCode.ts`).

The TypeScript source is shallowly embedded: each exported or internal
function of `pipelineToCode.ts` becomes a Lean definition of the same name.
JavaScript `Map`s are modelled by association lists / update functions that
reproduce insertion-order iteration and last-set-wins lookup; JavaScript
numbers used by the module (split ratios, hyperparameters) are modelled by
`Rat`; thrown `PipelineValidationError`s become `Except String`;
`localStorage` is passed explicitly as a read-only `store` function, and
`new Date().toLocaleString('ko-KR')` is passed explicitly as a timestamp
string argument to the two wrapper generators, which are the only places
the source consults the clock.
-/

namespace Pipeline

/-- Mirrors the `controls?: Record<string, any>` values actually read by the
compiler: strings (file name, target column, method, algorithm, layers) and
numbers (ratio, k, n_estimators, epochs). -/
inductive CtrlVal where
  | str (v : String)
  | num (v : Rat)
deriving DecidableEq, Repr

/-- `interface NodeData` of `pipelineToCode.ts` (`controls` as an association
list, `position` as a pair of rationals; the position is never read by the
compiler). -/
structure NodeData where
  id : String
  label : String
  kind : String
  controls : List (String × CtrlVal)
  posX : Rat
  posY : Rat
deriving DecidableEq, Repr

/-- `interface ConnectionData` of `pipelineToCode.ts`. -/
structure ConnectionData where
  id : String
  source : String
  target : String
  sourceOutput : String
  targetInput : String
deriving DecidableEq, Repr

/-- `interface GraphData` of `pipelineToCode.ts`. -/
structure GraphData where
  nodes : List NodeData
  connections : List ConnectionData
deriving DecidableEq, Repr

/-! ### Topological sort (`topologicalSort`, source lines 112-150)

The source builds two JS `Map`s (`graph`: adjacency lists, `inDegree`),
seeds a FIFO queue with the zero-in-degree keys in `Map` insertion order,
and runs Kahn's algorithm, skipping queue ids that resolve to no node.
We model the `inDegree` map as a total function `String → Int`
(`inDegree.get(x) || 0` reads `0` for absent keys), the adjacency map as the
derived function `adjOf`, and the `while` loop as a fuel-indexed structural
recursion `kahnLoopFuel`; `kahnLoopFuel_irrelevant` below proves the result
is independent of the fuel once it exceeds the loop's step count, so the
fuelled function agrees with the unbounded JS loop. -/

/-- The ids of a node list, in declaration order. -/
def nodeIds (nodes : List NodeData) : List String := nodes.map (·.id)

/-- First-occurrence deduplication, mirroring JS `Map` key insertion order
when the same key is `set` twice. -/
def firstDedupAux (seen : List String) : List String → List String
  | [] => []
  | x :: xs => if x ∈ seen then firstDedupAux seen xs else x :: firstDedupAux (x :: seen) xs

def firstDedup (l : List String) : List String := firstDedupAux [] l

/-- In-degree of `v` after the `connections.forEach` loop: one per incoming
connection. -/
def deg0 (conns : List ConnectionData) (v : String) : Int :=
  ((conns.filter (fun c => c.target = v)).length : Int)

/-- Adjacency list of `u` after the construction loops: the targets of the
connections whose source is `u`, in connection declaration order — and `[]`
when `u` is not a node id (`graph.get(conn.source)?.push` is a no-op then). -/
def adjOf (nodes : List NodeData) (conns : List ConnectionData) (u : String) : List String :=
  if u ∈ nodeIds nodes then (conns.filter (fun c => c.source = u)).map (·.target) else []

/-- The initial queue: ids with in-degree 0, in `inDegree` key insertion
order.  Keys are the node ids (first occurrences, in node order) followed by
connection targets that are not node ids; the latter all have in-degree at
least 1, so only the node-id keys survive the filter. -/
def initQueue (nodes : List NodeData) (conns : List ConnectionData) : List String :=
  (firstDedup (nodeIds nodes)).filter (fun v => deg0 conns v = 0)

/-- `new Map(nodes.map(n => [n.id, n])).get u`: the last node declaring id
`u`. -/
def findNodeLast (nodes : List NodeData) (u : String) : Option NodeData :=
  nodes.foldl (fun acc n => if n.id = u then some n else acc) none

/-- Pointwise update of an in-degree function (a JS `Map.set`). -/
def updInt (f : String → Int) (k : String) (v : Int) : String → Int :=
  fun x => if x = k then v else f x

/-- The inner `graph.get(nodeId)?.forEach(...)` loop: decrement each
neighbour's in-degree, collecting (in order) the neighbours whose degree
becomes exactly `0`. -/
def relax (deg : String → Int) : List String → (String → Int) × List String
  | [] => (deg, [])
  | v :: vs =>
    let d := deg v - 1
    let r := relax (updInt deg v d) vs
    (r.1, if d = 0 then v :: r.2 else r.2)

/-- The `while (queue.length > 0)` loop.  `fuel` only bounds the number of
iterations; `topologicalSort` supplies `nodes.length + connections.length + 1`,
which `kahnLoopFuel_irrelevant` proves is always enough. -/
def kahnLoopFuel (nodes : List NodeData) (conns : List ConnectionData) :
    Nat → (String → Int) → List String → List NodeData → List NodeData
  | 0, _, _, sorted => sorted
  | fuel + 1, deg, queue, sorted =>
    match queue with
    | [] => sorted
    | u :: rest =>
      let sorted1 := match findNodeLast nodes u with
        | some n => sorted ++ [n]
        | none => sorted
      let r := relax deg (adjOf nodes conns u)
      kahnLoopFuel nodes conns fuel r.1 (rest ++ r.2) sorted1

/-- `topologicalSort(nodes, connections)` of the source. -/
def topologicalSort (nodes : List NodeData) (conns : List ConnectionData) : List NodeData :=
  kahnLoopFuel nodes conns (nodes.length + conns.length + 1) (deg0 conns) (initQueue nodes conns) []

/-! ### Pre-validation (`validatePipelineStructure`, source lines 36-107)

The source throws `PipelineValidationError` at the first violated rule; we
return `Except String Unit` carrying the same message.  Its rules are:
a `dataLoader` must exist; every non-`dataLoader` node must occur in some
connection; `dataSplit` needs an incoming connection; the four training
kinds need an incoming `train` connection; `predict` needs incoming `model`
and `test`; `evaluate` needs incoming `prediction` and `test`. -/

/-- `Array.prototype.join(sep)` / the `', '`-join used for orphan labels. -/
def joinSep (sep : String) : List String → String
  | [] => ""
  | [x] => x
  | x :: y :: ys => x ++ sep ++ joinSep sep (y :: ys)

/-- Membership of `v` in the `connectedNodes` set (sources and targets of
all connections). -/
def isConnected (conns : List ConnectionData) (v : String) : Bool :=
  conns.any (fun c => c.source = v || c.target = v)

/-- The per-node checks of the `nodes.forEach` block.  The five guarded
rules are keyed on pairwise-distinct kinds, so the source's sequence of
independent `if` statements is equivalent to this `if`/`else` chain. -/
def checkNode (conns : List ConnectionData) (node : NodeData) : Except String Unit :=
  let incoming := conns.filter (fun c => c.target = node.id)
  if node.kind = "dataSplit" ∧ incoming.length = 0 then
    .error (node.label ++ ": 데이터를 입력해주세요.")
  else if node.kind ∈ ["classifier", "regressor", "neuralNet", "hyperparamTune"] ∧
      ¬ (incoming.any (fun c => c.targetInput = "train")) then
    .error (node.label ++ ": 훈련용 데이터를 연결해주세요.")
  else if node.kind = "predict" ∧
      ¬ (incoming.any (fun c => c.targetInput = "model") ∧
         incoming.any (fun c => c.targetInput = "test")) then
    .error (node.label ++ ": 모델과 테스트용 데이터를 모두 연결해주세요.")
  else if node.kind = "evaluate" ∧
      ¬ (incoming.any (fun c => c.targetInput = "prediction") ∧
         incoming.any (fun c => c.targetInput = "test")) then
    .error (node.label ++ ": 예측결과와 테스트용 데이터를 모두 연결해주세요.")
  else
    .ok ()

/-- Sequential traversal of the node list, stopping at the first thrown
error. -/
def checkNodes (conns : List ConnectionData) : List NodeData → Except String Unit
  | [] => .ok ()
  | n :: rest =>
    match checkNode conns n with
    | .error e => .error e
    | .ok _ => checkNodes conns rest

/-- `validatePipelineStructure(nodes, connections)` of the source. -/
def validatePipelineStructure (nodes : List NodeData) (conns : List ConnectionData) :
    Except String Unit :=
  if ¬ nodes.any (fun n => n.kind = "dataLoader") then
    .error "파이프라인에 DataLoader 노드가 필요합니다."
  else
    let orphanedNodes := nodes.filter (fun n => n.kind ≠ "dataLoader" ∧ ¬ isConnected conns n.id)
    if orphanedNodes.length > 0 then
      .error ("연결되지 않은 노드가 있습니다: " ++ joinSep ", " (orphanedNodes.map (·.label)))
    else
      checkNodes conns nodes

/-! ### Connection index (`indexConnections`, source lines 155-166)

A JS `Map<string, Map<string, ConnectionData>>`; `Map.set` on an existing
key replaces the value in place, so a later connection to the same
`(target, targetInput)` pair overwrites an earlier one.  We model the maps
as association lists with in-place-replacing `assocSet` and `find?`-based
`assocGet`. -/

def assocSet {α : Type} (m : List (String × α)) (k : String) (v : α) : List (String × α) :=
  match m with
  | [] => [(k, v)]
  | (k', v') :: rest => if k' = k then (k, v) :: rest else (k', v') :: assocSet rest k v

def assocGet {α : Type} (m : List (String × α)) (k : String) : Option α :=
  (m.find? (fun p => p.1 = k)).map (·.2)

/-- `indexConnections(connections)` of the source. -/
def indexConnections (conns : List ConnectionData) :
    List (String × List (String × ConnectionData)) :=
  conns.foldl
    (fun index conn =>
      let inner := (assocGet index conn.target).getD []
      assocSet index conn.target (assocSet inner conn.targetInput conn))
    []

/-- `connectionIndex.get(tgt)?.get(inp)`. -/
def connLookup (index : List (String × List (String × ConnectionData)))
    (tgt inp : String) : Option ConnectionData :=
  (assocGet index tgt).bind (fun inner => assocGet inner inp)

/-! ### Decimal rendering

JavaScript stringifies the integers interpolated into the generated code
(`${index + 1}`, `${nEstimators}`, …) in ordinary decimal.  We render
decimals ourselves (rather than through `Nat.repr`) so that injectivity and
non-emptiness are provable; the output is the standard most-significant-first
decimal string. -/

def digitChar10 (d : Nat) : Char := Char.ofNat (48 + d)

/-- Little-endian decimal digits of `n`; the fuel is an upper bound on the
digit count (any fuel above `n` suffices). -/
def decAux : Nat → Nat → List Char
  | 0, _ => []
  | fuel + 1, n => if n < 10 then [digitChar10 n] else digitChar10 (n % 10) :: decAux fuel (n / 10)

/-- Decimal rendering of a natural number, as JavaScript prints it. -/
def decRepr (n : Nat) : String := ⟨(decAux (n + 1) n).reverse⟩

/-- Decimal rendering of an integer. -/
def intRepr (i : Int) : String :=
  if i < 0 then "-" ++ decRepr i.natAbs else decRepr i.natAbs

/-! ### Variable names (`getSimpleVarName`, source lines 171-191) -/

/-- The `kindMap` record literal: per-kind base names.  (Note: the table
contains entries for `evaluation` and `tuning`, kinds that never pass the
ML-kind filter, and no entry for `hyperparamTune`, which therefore falls
back to `step`.) -/
def kindBaseName (kind : String) : String :=
  if kind = "dataLoader" then "data"
  else if kind = "dataSplit" then "split"
  else if kind = "scaler" then "scaler"
  else if kind = "featureSelection" then "selector"
  else if kind = "classifier" then "model"
  else if kind = "regressor" then "model"
  else if kind = "neuralNet" then "nn"
  else if kind = "evaluation" then "metrics"
  else if kind = "tuning" then "tuner"
  else if kind = "predict" then "pred"
  else if kind = "evaluate" then "eval"
  else "step"

/-- `index === 0 ? baseName : baseName + (index + 1)`. -/
def mkVarName (base : String) (index : Nat) : String :=
  if index = 0 then base else base ++ decRepr (index + 1)

/-- `getSimpleVarName(node, nodeIndex)` of the source.  The mutable
`nodeIndex: Map<string, number>` becomes an explicit occurrence-counter
function returned alongside the name. -/
def getSimpleVarName (node : NodeData) (nodeIndex : String → Nat) :
    String × (String → Nat) :=
  let baseName := kindBaseName node.kind
  let index := nodeIndex node.kind
  (mkVarName baseName index, fun k => if k = node.kind then index + 1 else nodeIndex k)

/-- The `sortedNodes.forEach` loop of `generatePythonCode` that populates
`varNameMap`, as an association list in schedule order. -/
def buildVarMapAux : List NodeData → (String → Nat) → List (String × String)
  | [], _ => []
  | n :: rest, nodeIndex =>
    let r := getSimpleVarName n nodeIndex
    (n.id, r.1) :: buildVarMapAux rest r.2

def buildVarMap (sortedNodes : List NodeData) : List (String × String) :=
  buildVarMapAux sortedNodes (fun _ => 0)

/-- `varNameMap.get(id)`.  Schedule ids are pairwise distinct
(`topologicalSort` never emits an id twice), so first-match lookup agrees
with the JS `Map`. -/
def lookupVar (m : List (String × String)) (id : String) : Option String :=
  (m.find? (fun p => p.1 = id)).map (·.2)

/-! ### JavaScript number formatting

The module interpolates numeric control values (`${ratio}`, `${k}`, …) and
one `toFixed(2)` result into the generated text.  JS numbers are modelled by
`Rat`; `ratToJs` renders terminating decimal expansions the way JS prints
the values occurring here (integers without a point, fractions in decimal). -/

/-- Decimal digits of the proper fraction `num/den`, stopping when the
remainder vanishes (at most `fuel` digits). -/
def fracDigits : Nat → Nat → Nat → List Char
  | 0, _, _ => []
  | fuel + 1, num, den =>
    if num = 0 then []
    else digitChar10 (num * 10 / den) :: fracDigits fuel (num * 10 % den) den

def ratToJs (q : Rat) : String :=
  let sign := if q < 0 then "-" else ""
  let a := |q|
  let whole := a.num.toNat / a.den
  let rem := a.num.toNat % a.den
  sign ++ decRepr whole ++ (if rem = 0 then "" else "." ++ ⟨fracDigits 20 rem a.den⟩)

/-- `(x).toFixed(2)`: two-digit fixed-point rendering, rounding half up on
the magnitude. -/
def jsToFixed2 (q : Rat) : String :=
  let sign := if q < 0 then "-" else ""
  let scaled := ((|q| * 100 + 1/2).floor).toNat
  sign ++ decRepr (scaled / 100) ++ "." ++
    (if scaled % 100 < 10 then "0" else "") ++ decRepr (scaled % 100)

/-! ### Control lookups (`node.controls?.key || default`)

`||` falls back on falsy values, so an empty string or a zero number also
selects the default.  The editor stores each control under its expected
type; a value of the other type is modelled as absent for the numeric
getter and stringified for the string getter. -/

def ctrlGet (node : NodeData) (key : String) : Option CtrlVal :=
  (node.controls.find? (fun p => p.1 = key)).map (·.2)

def ctrlS (node : NodeData) (key defaultVal : String) : String :=
  match ctrlGet node key with
  | some (.str v) => if v = "" then defaultVal else v
  | some (.num v) => if v = 0 then defaultVal else ratToJs v
  | none => defaultVal

def ctrlN (node : NodeData) (key : String) (defaultVal : Rat) : Rat :=
  match ctrlGet node key with
  | some (.num v) => if v = 0 then defaultVal else v
  | some (.str _) => defaultVal
  | none => defaultVal

/-! ### Base64 (`btoa(unescape(encodeURIComponent(s)))` = base64 of the
UTF-8 bytes) -/

def b64Char (n : Nat) : Char :=
  "ABCDEFGHIJKLMNOPQRSTUVWXYZabcdefghijklmnopqrstuvwxyz0123456789+/".data.getD n 'A'

def base64Encode : List UInt8 → String
  | [] => ""
  | [a] =>
    String.mk [b64Char (a.toNat / 4), b64Char (a.toNat % 4 * 16)] ++ "=="
  | [a, b] =>
    String.mk [b64Char (a.toNat / 4), b64Char (a.toNat % 4 * 16 + b.toNat / 16),
      b64Char (b.toNat % 16 * 4)] ++ "="
  | a :: b :: c :: rest =>
    String.mk [b64Char (a.toNat / 4), b64Char (a.toNat % 4 * 16 + b.toNat / 16),
      b64Char (b.toNat % 16 * 4 + c.toNat / 64), b64Char (c.toNat % 64)] ++
    base64Encode rest

def btoaUtf8 (s : String) : String := base64Encode s.toUTF8.data.toList

/-! ### Per-node code emission (`nodeToCode`, source lines 196-465)

A direct transcription of the `switch (node.kind)`.  `store` models the
read-only `localStorage` consulted by the `dataLoader` case.  Literal
braces and single quotes of the emitted Python text are written `\x7b`,
`\x7d` and `\x27`. -/

def getSourceVarName (node : NodeData)
    (connectionIndex : List (String × List (String × ConnectionData)))
    (varNameMap : List (String × String)) (inputKey : String) : String :=
  match connLookup connectionIndex node.id inputKey with
  | none => "data"
  | some conn => (lookupVar varNameMap conn.source).getD "data"

def classifierModelCode (algorithm nEstimators : String) : String :=
  if algorithm = "RandomForest" then
    "RandomForestClassifier(n_estimators=" ++ nEstimators ++ ", random_state=42)"
  else if algorithm = "LogisticRegression" then
    "LogisticRegression(random_state=42, max_iter=1000)"
  else if algorithm = "SVM" then "SVC(random_state=42)"
  else if algorithm = "DecisionTree" then "DecisionTreeClassifier(random_state=42)"
  else if algorithm = "KNN" then "KNeighborsClassifier(n_neighbors=5)"
  else if algorithm = "GradientBoosting" then
    "GradientBoostingClassifier(n_estimators=" ++ nEstimators ++ ", random_state=42)"
  else "RandomForestClassifier(n_estimators=" ++ nEstimators ++ ", random_state=42)"

def regressorModelCode (algorithm : String) : String :=
  if algorithm = "LinearRegression" then "LinearRegression()"
  else if algorithm = "Ridge" then "Ridge(random_state=42)"
  else if algorithm = "Lasso" then "Lasso(random_state=42)"
  else if algorithm = "RandomForestRegressor" then "RandomForestRegressor(random_state=42)"
  else if algorithm = "SVR" then "SVR()"
  else if algorithm = "GradientBoostingRegressor" then
    "GradientBoostingRegressor(random_state=42)"
  else "LinearRegression()"

/-- The column-normalisation block shared by both `dataLoader` templates. -/
def columnCleanup (vn : String) : String :=
  "\n\n# 컬럼명 정리 (공백 및 특수문자 제거)\n" ++ vn ++ ".columns = " ++ vn ++
  ".columns.str.strip()\n" ++ vn ++
  ".columns = [col.split(\x27(\x27)[0].strip().replace(\x27#\x27, \x27\x27).replace(\x27 \x27, \x27_\x27).lower() for col in " ++
  vn ++ ".columns]\n\n"

def nodeToCode (store : String → Option String) (node : NodeData)
    (connectionIndex : List (String × List (String × ConnectionData)))
    (nodeMap : String → Option NodeData) (varName : String)
    (varNameMap : List (String × String)) : String :=
  let getConnection := fun (inputKey : String) => connLookup connectionIndex node.id inputKey
  if node.kind = "dataLoader" then
    let fileName := ctrlS node "fileName" "data.csv"
    match store ("csv_data_" ++ fileName) with
    | some storedData =>
      let base64Content := btoaUtf8 storedData
      "# Load Data from uploaded CSV: " ++ fileName ++
      "\nimport io\nimport base64\n\n# Embedded CSV data (uploaded from browser)\ncsv_content = base64.b64decode(\x27" ++
      base64Content ++ "\x27).decode(\x27utf-8\x27)\n" ++ varName ++
      " = pd.read_csv(io.StringIO(csv_content))" ++ columnCleanup varName ++
      "print(f\"Data loaded from " ++ fileName ++ ": \x7b" ++ varName ++
      ".shape\x7d\")\nprint(f\"Columns: \x7b" ++ varName ++
      ".columns.tolist()\x7d\")\nprint(\"\\nFirst 5 rows:\")\nprint(" ++ varName ++ ".head())"
    | none =>
      "# Load Data from file\n" ++ varName ++ " = pd.read_csv(\x27" ++ fileName ++
      "\x27)" ++ columnCleanup varName ++
      "print(f\"Data loaded: \x7b" ++ varName ++
      ".shape\x7d\")\nprint(f\"Columns: \x7b" ++ varName ++
      ".columns.tolist()\x7d\")\nprint(\"\\nFirst 5 rows:\")\nprint(" ++ varName ++ ".head())"
  else if node.kind = "dataSplit" then
    let ratio := ctrlN node "ratio" (4 / 5)
    let targetColumn := ctrlS node "targetColumn" "target"
    let sourceVar := getSourceVarName node connectionIndex varNameMap "data"
    "# 훈련/테스트 데이터 분할\n# 목표 변수: \x27" ++ targetColumn ++ "\x27\nX = " ++
    sourceVar ++ ".drop(\x27" ++ targetColumn ++ "\x27, axis=1)\ny = " ++ sourceVar ++
    "[\x27" ++ targetColumn ++
    "\x27]\nX_train, X_test, y_train, y_test = train_test_split(\n    X, y, test_size=" ++
    jsToFixed2 (1 - ratio) ++
    ", random_state=42\n)\nprint(f\"훈련 데이터: \x7blen(X_train)\x7d개, 테스트 데이터: \x7blen(X_test)\x7d개\")\nprint(f\"목표 변수: \x27" ++
    targetColumn ++ "\x27\")"
  else if node.kind = "scaler" then
    let method := ctrlS node "method" "StandardScaler"
    "# 데이터 스케일링 (" ++ method ++ ")\n" ++ varName ++ " = " ++ method ++
    "()\nX_train_scaled = " ++ varName ++ ".fit_transform(X_train)\nX_test_scaled = " ++
    varName ++ ".transform(X_test)\nprint(\"" ++ method ++
    "로 스케일링 완료\")\nprint(f\"훈련 데이터 크기: \x7bX_train_scaled.shape\x7d\")\n\n# 변수 업데이트\nX_train = X_train_scaled\nX_test = X_test_scaled"
  else if node.kind = "featureSelection" then
    let method := ctrlS node "method" "SelectKBest"
    let k := ctrlN node "k" 10
    "# 특성 선택 (" ++ method ++ ")\n" ++ varName ++ " = " ++ method ++ "(k=" ++
    ratToJs k ++ ")\nX_train_selected = " ++ varName ++
    ".fit_transform(X_train, y_train)\nX_test_selected = " ++ varName ++
    ".transform(X_test)\nprint(f\"\x7bX_train.shape[1]\x7d개 특성 중 \x7bk\x7d개 선택\")\n\n# 변수 업데이트\nX_train = X_train_selected\nX_test = X_test_selected"
  else if node.kind = "classifier" then
    let algorithm := ctrlS node "algorithm" "RandomForest"
    let nEstimators := ctrlN node "n_estimators" 100
    let modelCode := classifierModelCode algorithm (ratToJs nEstimators)
    "# 모델 훈련 (" ++ algorithm ++ ")\n" ++ varName ++ " = " ++ modelCode ++ "\n" ++
    varName ++ ".fit(X_train, y_train)\nprint(\"모델 훈련 완료: " ++ algorithm ++
    "\")\nprint(f\"훈련 정확도: \x7b" ++ varName ++ ".score(X_train, y_train):.4f\x7d\")"
  else if node.kind = "regressor" then
    let algorithm := ctrlS node "algorithm" "LinearRegression"
    let modelCode := regressorModelCode algorithm
    "# 모델 훈련 (" ++ algorithm ++ ")\n" ++ varName ++ " = " ++ modelCode ++ "\n" ++
    varName ++ ".fit(X_train, y_train)\nprint(\"모델 훈련 완료: " ++ algorithm ++
    "\")\nprint(f\"훈련 R² 점수: \x7b" ++ varName ++ ".score(X_train, y_train):.4f\x7d\")"
  else if node.kind = "neuralNet" then
    let layers := ctrlS node "layers" "64,32"
    let epochs := ctrlN node "epochs" 50
    "# 신경망 모델 훈련\n" ++ varName ++ " = MLPClassifier(hidden_layer_sizes=(" ++
    layers ++ "), max_iter=" ++ ratToJs epochs ++ ", random_state=42)\n" ++ varName ++
    ".fit(X_train, y_train)\nprint(\"신경망 훈련 완료: [" ++ layers ++
    "] 레이어\")\nprint(f\"훈련 정확도: \x7b" ++ varName ++ ".score(X_train, y_train):.4f\x7d\")"
  else if node.kind = "evaluate" then
    let testConn := getConnection "test"
    let predictionConn := getConnection "prediction"
    match testConn, predictionConn with
    | none, _ =>
      "# ⚠️ Warning: Test data not connected to evaluate node\nprint(\"⚠️ 경고: 테스트용 데이터가 연결되지 않았습니다\")"
    | some _, none =>
      "# ⚠️ Warning: No predictions connected to evaluate\nprint(\"⚠️ 경고: 예측 결과가 연결되지 않았습니다\")"
    | some _, some predConn =>
      let isRegression : Bool :=
        match nodeMap predConn.source with
        | some predictNode =>
          match connLookup connectionIndex predictNode.id "model" with
          | some predictModelConn =>
            match nodeMap predictModelConn.source with
            | some modelNode => modelNode.kind == "regressor"
            | none => false
          | none => false
        | none => false
      if isRegression then
        "# 모델 평가 (회귀)\nfrom sklearn.metrics import mean_squared_error, r2_score, mean_absolute_error\nmse = mean_squared_error(y_test, y_pred)\nrmse = np.sqrt(mse)\nmae = mean_absolute_error(y_test, y_pred)\nr2 = r2_score(y_test, y_pred)\nprint(f\"Mean Squared Error (MSE): \x7bmse:.4f\x7d\")\nprint(f\"Root Mean Squared Error (RMSE): \x7brmse:.4f\x7d\")\nprint(f\"Mean Absolute Error (MAE): \x7bmae:.4f\x7d\")\nprint(f\"R² Score: \x7br2:.4f\x7d\")"
      else
        "# 모델 평가 (분류)\naccuracy = accuracy_score(y_test, y_pred)\nprint(f\"Accuracy: \x7baccuracy:.4f\x7d\")\nprint(\"\\nClassification Report:\")\nprint(classification_report(y_test, y_pred))\nprint(\"\\nConfusion Matrix:\")\nprint(confusion_matrix(y_test, y_pred))"
  else if node.kind = "predict" then
    let modelConn := getConnection "model"
    let testConn := getConnection "test"
    match modelConn, testConn with
    | none, _ =>
      "# TODO: 모델을 연결해주세요\ny_pred = None\nprint(\"⚠️ 경고: 모델이 연결되지 않음\")"
    | some _, none =>
      "# TODO: 테스트용 데이터를 연결해주세요\ny_pred = None\nprint(\"⚠️ 경고: 테스트 데이터가 연결되지 않음\")"
    | some mConn, some _ =>
      let modelVar := (lookupVar varNameMap mConn.source).getD "model"
      "# 예측 수행\ny_pred = " ++ modelVar ++
      ".predict(X_test)\nprint(f\"예측 완료: \x7blen(y_pred)\x7d개 샘플\")\nprint(f\"처음 10개 예측: \x7by_pred[:10]\x7d\")"
  else if node.kind = "hyperparamTune" then
    "# 하이퍼파라미터 틜닝\nparam_grid = \x7b\n    \x27n_estimators\x27: [50, 100, 200],\n    \x27max_depth\x27: [10, 20, 30]\n\x7d\ngrid_search = GridSearchCV(RandomForestClassifier(random_state=42), param_grid, cv=5)\ngrid_search.fit(X_train, y_train)\n" ++
    varName ++
    " = grid_search.best_estimator_\nprint(f\"최적 파라미터: \x7bgrid_search.best_params_\x7d\")\nprint(f\"최고 점수: \x7bgrid_search.best_score_:.4f\x7d\")"
  else
    "# Unknown node type: " ++ node.kind

/-! ### Import preamble (`generateImports`, source lines 470-512)

A JS `Set<string>` preserves insertion order and drops repeats, so the
preamble is the first-occurrence sequence of the lines added. -/

def setAdd (l : List String) (s : String) : List String :=
  if s ∈ l then l else l ++ [s]

def importsFor (kind : String) : List String :=
  if kind = "dataSplit" then ["from sklearn.model_selection import train_test_split"]
  else if kind = "scaler" then
    ["from sklearn.preprocessing import StandardScaler, MinMaxScaler, RobustScaler, MaxAbsScaler"]
  else if kind = "featureSelection" then
    ["from sklearn.feature_selection import SelectKBest, f_classif"]
  else if kind = "classifier" then
    ["from sklearn.ensemble import RandomForestClassifier, GradientBoostingClassifier",
     "from sklearn.linear_model import LogisticRegression",
     "from sklearn.svm import SVC",
     "from sklearn.tree import DecisionTreeClassifier",
     "from sklearn.neighbors import KNeighborsClassifier"]
  else if kind = "regressor" then
    ["from sklearn.linear_model import LinearRegression, Ridge, Lasso",
     "from sklearn.ensemble import RandomForestRegressor, GradientBoostingRegressor",
     "from sklearn.svm import SVR"]
  else if kind = "neuralNet" then ["from sklearn.neural_network import MLPClassifier"]
  else if kind = "evaluate" then
    ["from sklearn.metrics import accuracy_score, classification_report, confusion_matrix"]
  else if kind = "hyperparamTune" then ["from sklearn.model_selection import GridSearchCV"]
  else []

def generateImports (nodes : List NodeData) : String :=
  let base := ["import pandas as pd", "import numpy as np"]
  joinSep "\n" (nodes.foldl (fun acc n => (importsFor n.kind).foldl setAdd acc) base)

/-! ### Assembly (`generatePythonCode`, source lines 517-574) -/

/-- The fixed list of ML node kinds recognised by the assembler's filter. -/
def registryKinds : List String :=
  ["dataLoader", "dataSplit", "scaler", "featureSelection",
   "classifier", "regressor", "neuralNet", "evaluate",
   "predict", "hyperparamTune"]

def mlFilter (nodes : List NodeData) : List NodeData :=
  nodes.filter (fun n => n.kind ∈ registryKinds)

/-- `generatePythonCode(graph)` of the source; thrown
`PipelineValidationError`s become `Except.error`. -/
def generatePythonCode (store : String → Option String) (graph : GraphData) :
    Except String String :=
  if graph.nodes.isEmpty then .error "파이프라인에 노드가 없습니다."
  else
    let mlNodes := mlFilter graph.nodes
    if mlNodes.isEmpty then .error "파이프라인에 ML 노드가 없습니다."
    else
      match validatePipelineStructure mlNodes graph.connections with
      | .error e => .error e
      | .ok _ =>
        let sortedNodes := topologicalSort mlNodes graph.connections
        let nodeMap := findNodeLast mlNodes
        let connectionIndex := indexConnections graph.connections
        let varNameMap := buildVarMap sortedNodes
        let imports := generateImports mlNodes
        let codeBlocks := sortedNodes.map (fun n =>
          nodeToCode store n connectionIndex nodeMap ((lookupVar varNameMap n.id).getD "data") varNameMap)
        .ok (imports ++
          "\n\n# ========================================\n# ML Pipeline Auto-Generated Code\n# ========================================\n\n" ++
          joinSep "\n\n" codeBlocks ++
          "\n\n# ========================================\n# Pipeline Complete!\n# ========================================\n")

/-! ### Script wrapper (`generatePythonScript`, source lines 629-644)

`new Date().toLocaleString('ko-KR')` is passed in as `generatedOn`: it is
the only run-dependent input. -/

def scriptHeader (pipelineName generatedOn : String) : String :=
  "\"\"\"\n" ++ pipelineName ++ "\n\nAuto-generated ML Pipeline Script\nGenerated on: " ++
  generatedOn ++ "\n\nThis script was created from a visual ML pipeline builder.\n\"\"\"\n\n"

def generatePythonScript (generatedOn : String) (store : String → Option String)
    (graph : GraphData) (pipelineName : String := "ML Pipeline") : Except String String :=
  match generatePythonCode store graph with
  | .error e => .error e
  | .ok pythonCode => .ok (scriptHeader pipelineName generatedOn ++ pythonCode)

/-! ### Notebook wrapper (`generateJupyterNotebook`, source lines 579-624)

The notebook object is serialised with `JSON.stringify(notebook, null, 2)`;
`JVal`/`render` reproduce that serialisation (two-space indent, `\uXXXX`
escapes only for the mandatory control/quote/backslash characters, non-ASCII
kept verbatim). -/

inductive JVal where
  | jstr (s : String)
  | jnum (n : Int)
  | jnull
  | jarr (xs : List JVal)
  | jobj (fields : List (String × JVal))

def jsonEscapeChar (c : Char) : String :=
  if c = '"' then "\\\""
  else if c = '\\' then "\\\\"
  else if c = '\n' then "\\n"
  else if c = '\r' then "\\r"
  else if c = '\t' then "\\t"
  else if c = (Char.ofNat 8) then "\\b"
  else if c = (Char.ofNat 12) then "\\f"
  else if c.toNat < 32 then
    "\\u00" ++ (if c.toNat < 16 then "0" else "1") ++
      String.mk [(if c.toNat % 16 < 10 then digitChar10 (c.toNat % 16)
        else Char.ofNat (97 + c.toNat % 16 - 10))]
  else String.mk [c]

def escList : List Char → String
  | [] => ""
  | c :: cs => jsonEscapeChar c ++ escList cs

def jsonEscape (s : String) : String := escList s.data

def jsonStr (s : String) : String := "\"" ++ jsonEscape s ++ "\""

def jIndent : Nat → String
  | 0 => ""
  | d + 1 => jIndent d ++ "  "

mutual

def render (d : Nat) : JVal → String
  | .jstr s => jsonStr s
  | .jnum n => intRepr n
  | .jnull => "null"
  | .jarr [] => "[]"
  | .jarr (x :: xs) =>
    "[\n" ++ joinSep ",\n" (renderItems (d + 1) (x :: xs)) ++ "\n" ++ jIndent d ++ "]"
  | .jobj [] => "\x7b\x7d"
  | .jobj (f :: fs) =>
    "\x7b\n" ++ joinSep ",\n" (renderFields (d + 1) (f :: fs)) ++ "\n" ++ jIndent d ++ "\x7d"

def renderItems (d : Nat) : List JVal → List String
  | [] => []
  | x :: xs => (jIndent d ++ render d x) :: renderItems d xs

def renderFields (d : Nat) : List (String × JVal) → List String
  | [] => []
  | (k, v) :: fs => (jIndent d ++ jsonStr k ++ ": " ++ render d v) :: renderFields d fs

end

/-- The leading markdown title cell (the only part of the notebook that
depends on the generation timestamp). -/
def markdownCell (pipelineName generatedOn : String) : JVal :=
  .jobj [("cell_type", .jstr "markdown"), ("metadata", .jobj []),
    ("source", .jarr [.jstr ("# " ++ pipelineName ++ "\n"), .jstr "\n",
      .jstr "This notebook was auto-generated from a visual ML pipeline builder.\n",
      .jstr "\n", .jstr ("Generated on: " ++ generatedOn ++ "\n")])]

/-- One code cell per paragraph-separated section of the generated code. -/
def codeCell (sec : String) : JVal :=
  .jobj [("cell_type", .jstr "code"), ("execution_count", .jnull),
    ("metadata", .jobj []), ("outputs", .jarr []),
    ("source", .jarr ((sec.splitOn "\n").map (fun line => .jstr (line ++ "\n"))))]

def notebookJson (pipelineName generatedOn pythonCode : String) : JVal :=
  let sections := pythonCode.splitOn "\n\n"
  .jobj [("cells", .jarr (markdownCell pipelineName generatedOn :: sections.map codeCell)),
    ("metadata", .jobj [
      ("kernelspec", .jobj [("display_name", .jstr "Python 3"),
        ("language", .jstr "python"), ("name", .jstr "python3")]),
      ("language_info", .jobj [("name", .jstr "python"), ("version", .jstr "3.8.0")])]),
    ("nbformat", .jnum 4), ("nbformat_minor", .jnum 4)]

def generateJupyterNotebook (generatedOn : String) (store : String → Option String)
    (graph : GraphData) (pipelineName : String := "ML Pipeline") : Except String String :=
  match generatePythonCode store graph with
  | .error e => .error e
  | .ok pythonCode => .ok (render 0 (notebookJson pipelineName generatedOn pythonCode))

/-! ## Specification-side notions -/

/-- Acyclicity of the connection relation: some ranking of ids strictly
increases along every connection.  A directed cycle makes such a ranking
impossible, and on an acyclic finite graph the position in any topological
order is such a ranking. -/
def IsAcyclic (conns : List ConnectionData) : Prop :=
  ∃ rank : String → Nat, ∀ c ∈ conns, rank c.source < rank c.target

/-- The rules `validatePipelineStructure` actually enforces, stated
logically: a `dataLoader` exists; non-`dataLoader` nodes touch some
connection; `dataSplit` has an incoming connection; training kinds have an
incoming `train`; `predict` has incoming `model` and `test`; `evaluate` has
incoming `prediction` and `test`.  Note no rule mentions cycles, duplicate
node ids, or existence of connection endpoints. -/
def ValidationRulesOk (nodes : List NodeData) (conns : List ConnectionData) : Prop :=
  (∃ n ∈ nodes, n.kind = "dataLoader")
  ∧ (∀ n ∈ nodes, n.kind ≠ "dataLoader" → ∃ c ∈ conns, c.source = n.id ∨ c.target = n.id)
  ∧ (∀ n ∈ nodes, n.kind = "dataSplit" → ∃ c ∈ conns, c.target = n.id)
  ∧ (∀ n ∈ nodes, n.kind ∈ ["classifier", "regressor", "neuralNet", "hyperparamTune"] →
      ∃ c ∈ conns, c.target = n.id ∧ c.targetInput = "train")
  ∧ (∀ n ∈ nodes, n.kind = "predict" →
      (∃ c ∈ conns, c.target = n.id ∧ c.targetInput = "model") ∧
      (∃ c ∈ conns, c.target = n.id ∧ c.targetInput = "test"))
  ∧ (∀ n ∈ nodes, n.kind = "evaluate" →
      (∃ c ∈ conns, c.target = n.id ∧ c.targetInput = "prediction") ∧
      (∃ c ∈ conns, c.target = n.id ∧ c.targetInput = "test"))

lemma incoming_len_zero_iff (conns : List ConnectionData) (v : String) :
    (conns.filter (fun c => c.target = v)).length = 0 ↔ ¬ ∃ c ∈ conns, c.target = v := by
  simp [List.length_eq_zero, List.filter_eq_nil_iff]

lemma incoming_any_iff (conns : List ConnectionData) (v s : String) :
    ((conns.filter (fun c => c.target = v)).any (fun c => c.targetInput = s) = true) ↔
      ∃ c ∈ conns, c.target = v ∧ c.targetInput = s := by
  simp only [List.any_eq_true, List.mem_filter, decide_eq_true_iff]
  constructor
  · rintro ⟨c, ⟨hc, ht⟩, hs⟩; exact ⟨c, hc, ht, hs⟩
  · rintro ⟨c, hc, ht, hs⟩; exact ⟨c, ⟨hc, ht⟩, hs⟩

lemma checkNode_ok_iff (conns : List ConnectionData) (n : NodeData) :
    checkNode conns n = .ok () ↔
      ((n.kind = "dataSplit" → ∃ c ∈ conns, c.target = n.id) ∧
       (n.kind ∈ ["classifier", "regressor", "neuralNet", "hyperparamTune"] →
         ∃ c ∈ conns, c.target = n.id ∧ c.targetInput = "train") ∧
       (n.kind = "predict" →
         (∃ c ∈ conns, c.target = n.id ∧ c.targetInput = "model") ∧
         (∃ c ∈ conns, c.target = n.id ∧ c.targetInput = "test")) ∧
       (n.kind = "evaluate" →
         (∃ c ∈ conns, c.target = n.id ∧ c.targetInput = "prediction") ∧
         (∃ c ∈ conns, c.target = n.id ∧ c.targetInput = "test"))) := by
  simp only [checkNode]
  split_ifs with h1 h2 h3 h4
  · refine ⟨fun h => h.elim, fun h => absurd ((h.1 h1.1)) ?_⟩
    exact (incoming_len_zero_iff conns n.id).mp h1.2
  · refine ⟨fun h => h.elim, fun h => absurd (h.2.1 h2.1) ?_⟩
    intro hex
    exact h2.2 ((incoming_any_iff conns n.id "train").mpr hex)
  · refine ⟨fun h => h.elim, fun h => absurd (h.2.2.1 h3.1) ?_⟩
    rintro ⟨hm, ht⟩
    exact h3.2 ⟨(incoming_any_iff conns n.id "model").mpr hm,
      (incoming_any_iff conns n.id "test").mpr ht⟩
  · refine ⟨fun h => h.elim, fun h => absurd (h.2.2.2 h4.1) ?_⟩
    rintro ⟨hp, ht⟩
    exact h4.2 ⟨(incoming_any_iff conns n.id "prediction").mpr hp,
      (incoming_any_iff conns n.id "test").mpr ht⟩
  · rw [not_and_or] at h1 h2 h3 h4
    refine ⟨fun _ => ⟨?_, ?_, ?_, ?_⟩, fun _ => rfl⟩
    · intro hk
      rcases h1 with h | h
      · exact absurd hk h
      · rw [incoming_len_zero_iff, not_not] at h; exact h
    · intro hk
      rcases h2 with h | h
      · exact absurd hk h
      · rw [not_not, incoming_any_iff] at h; exact h
    · intro hk
      rcases h3 with h | h
      · exact absurd hk h
      · rw [not_not] at h
        exact ⟨(incoming_any_iff conns n.id "model").mp h.1,
          (incoming_any_iff conns n.id "test").mp h.2⟩
    · intro hk
      rcases h4 with h | h
      · exact absurd hk h
      · rw [not_not] at h
        exact ⟨(incoming_any_iff conns n.id "prediction").mp h.1,
          (incoming_any_iff conns n.id "test").mp h.2⟩

lemma checkNodes_ok_iff (conns : List ConnectionData) (nodes : List NodeData) :
    checkNodes conns nodes = .ok () ↔ ∀ n ∈ nodes, checkNode conns n = .ok () := by
  induction nodes with
  | nil => simp [checkNodes]
  | cons n rest ih =>
    simp only [checkNodes]
    cases h : checkNode conns n with
    | error e => simp [h]
    | ok u => cases u; simp [h, ih]

lemma isConnected_iff (conns : List ConnectionData) (v : String) :
    isConnected conns v = true ↔ ∃ c ∈ conns, c.source = v ∨ c.target = v := by
  simp [isConnected]

lemma orphan_filter_nil_iff (nodes : List NodeData) (conns : List ConnectionData) :
    (nodes.filter (fun n => n.kind ≠ "dataLoader" ∧ ¬ isConnected conns n.id)).length = 0 ↔
      ∀ n ∈ nodes, n.kind ≠ "dataLoader" →
        ∃ c ∈ conns, c.source = n.id ∨ c.target = n.id := by
  rw [List.length_eq_zero, List.filter_eq_nil_iff]
  constructor
  · intro h n hn hk
    have := h n hn
    rw [decide_eq_true_iff] at this
    push_neg at this
    exact (isConnected_iff conns n.id).mp (this hk)
  · intro h n hn
    rw [decide_eq_true_iff]
    rintro ⟨hk, hnc⟩
    exact hnc ((isConnected_iff conns n.id).mpr (h n hn hk))

/-- `validatePipelineStructure` succeeds exactly on the graphs satisfying
`ValidationRulesOk`. -/
lemma validateStructure_ok (nodes : List NodeData) (conns : List ConnectionData) :
    validatePipelineStructure nodes conns = .ok () ↔ ValidationRulesOk nodes conns := by
  have hA : (nodes.any (fun n => n.kind = "dataLoader") = true) ↔
      ∃ n ∈ nodes, n.kind = "dataLoader" := by simp
  rw [validatePipelineStructure, ValidationRulesOk]
  dsimp only
  by_cases h1 : (nodes.any (fun n => n.kind = "dataLoader")) = true
  case neg =>
    rw [if_pos h1]
    exact ⟨fun h => Except.noConfusion h, fun h => absurd (hA.mpr h.1) h1⟩
  rw [if_neg (not_not_intro h1)]
  by_cases h2 : (nodes.filter
      (fun n => n.kind ≠ "dataLoader" ∧ ¬ isConnected conns n.id)).length > 0
  case pos =>
    rw [if_pos h2]
    refine ⟨fun h => Except.noConfusion h, fun h => ?_⟩
    have := (orphan_filter_nil_iff nodes conns).mpr h.2.1
    omega
  · rw [if_neg h2]
    have hB := (orphan_filter_nil_iff nodes conns).mp (by omega)
    rw [checkNodes_ok_iff]
    have hall : (∀ n ∈ nodes, checkNode conns n = .ok ()) ↔
        ((∀ n ∈ nodes, n.kind = "dataSplit" → ∃ c ∈ conns, c.target = n.id) ∧
         (∀ n ∈ nodes, n.kind ∈ ["classifier", "regressor", "neuralNet", "hyperparamTune"] →
           ∃ c ∈ conns, c.target = n.id ∧ c.targetInput = "train") ∧
         (∀ n ∈ nodes, n.kind = "predict" →
           (∃ c ∈ conns, c.target = n.id ∧ c.targetInput = "model") ∧
           (∃ c ∈ conns, c.target = n.id ∧ c.targetInput = "test")) ∧
         (∀ n ∈ nodes, n.kind = "evaluate" →
           (∃ c ∈ conns, c.target = n.id ∧ c.targetInput = "prediction") ∧
           (∃ c ∈ conns, c.target = n.id ∧ c.targetInput = "test"))) := by
      constructor
      · intro h
        refine ⟨fun n hn => ((checkNode_ok_iff conns n).mp (h n hn)).1,
          fun n hn => ((checkNode_ok_iff conns n).mp (h n hn)).2.1,
          fun n hn => ((checkNode_ok_iff conns n).mp (h n hn)).2.2.1,
          fun n hn => ((checkNode_ok_iff conns n).mp (h n hn)).2.2.2⟩
      · rintro ⟨hc, hd, he, hf⟩ n hn
        exact (checkNode_ok_iff conns n).mpr ⟨hc n hn, hd n hn, he n hn, hf n hn⟩
    rw [hall]
    have hAx := hA.mp h1
    tauto

/-! ## Shared concrete fixtures -/

/-- A minimal node with no controls. -/
def exNode (i kind : String) : NodeData := ⟨i, i, kind, [], 0, 0⟩

/-- A connection with output socket `data`. -/
def exConn (s t ti : String) : ConnectionData := ⟨s ++ "->" ++ t, s, t, "data", ti⟩

/-- An empty uploaded-CSV store (`localStorage` with no `csv_data_*` keys). -/
def store0 : String → Option String := fun _ => none

/-- A graph whose two scaler nodes form a directed 2-cycle, next to a
`dataLoader`. -/
def cycNodes : List NodeData := [exNode "d" "dataLoader", exNode "s1" "scaler", exNode "s2" "scaler"]

def cycConns : List ConnectionData := [exConn "s1" "s2" "data", exConn "s2" "s1" "data"]

def cycGraph : GraphData := ⟨cycNodes, cycConns⟩

lemma cycConns_cyclic : ¬ IsAcyclic cycConns := by
  rintro ⟨rank, h⟩
  have h1 := h (exConn "s1" "s2" "data") (by simp [cycConns])
  have h2 := h (exConn "s2" "s1" "data") (by simp [cycConns])
  simp only [exConn] at h1 h2
  omega

/-! ## C1 — cycle handling of `validatePipelineStructure`/`generatePythonCode` -/

/-- C1, counterexample.  The claim says that on every graph with a directed
cycle, `validatePipelineStructure` (as invoked by `generatePythonCode`)
reports a cycle violation and the topological sort is never run.  On the
concrete cyclic graph `cycGraph` the validator succeeds, the scheduler runs
and silently drops the two cycle members, and `generatePythonCode`
succeeds. -/
theorem c1_counterexample :
    ¬ IsAcyclic cycConns
    ∧ validatePipelineStructure (mlFilter cycNodes) cycConns = .ok ()
    ∧ topologicalSort (mlFilter cycNodes) cycConns = [exNode "d" "dataLoader"]
    ∧ (generatePythonCode store0 cycGraph).isOk = true := by
  refine ⟨cycConns_cyclic, by rfl, by decide, by rfl⟩

/-- C1, amended.  `validatePipelineStructure` performs no cycle detection:
whenever its actual rules (`ValidationRulesOk`) hold and the graph has ML
nodes, compilation proceeds — the topological sort is run regardless of
cycles and `generatePythonCode` succeeds.  (Cycle rejection exists only in
the editor-layer `validatePipeline` of the UI component, outside
`pipelineToCode.ts`.) -/
theorem c1_amended (store : String → Option String) (graph : GraphData)
    (h1 : graph.nodes ≠ []) (h2 : mlFilter graph.nodes ≠ [])
    (h3 : ValidationRulesOk (mlFilter graph.nodes) graph.connections) :
    (generatePythonCode store graph).isOk = true := by
  rw [generatePythonCode]
  dsimp only
  rw [if_neg (by simp [List.isEmpty_iff, h1]), if_neg (by simp [List.isEmpty_iff, h2]),
    (validateStructure_ok _ _).mpr h3]
  rfl

/-- C1 witness: the amended theorem applied to the concrete cyclic graph. -/
theorem c1_amended_witness :
    (cycGraph.nodes ≠ [] ∧ mlFilter cycGraph.nodes ≠ [] ∧
      ValidationRulesOk (mlFilter cycGraph.nodes) cycGraph.connections)
    ∧ (generatePythonCode store0 cycGraph).isOk = true :=
  ⟨⟨by decide, by decide, by unfold ValidationRulesOk; decide⟩,
    c1_amended store0 cycGraph (by decide) (by decide) (by unfold ValidationRulesOk; decide)⟩

/-! ## C2 — unknown node kinds are filtered, not rejected -/

def unknownNodes : List NodeData := [exNode "d" "dataLoader", exNode "u" "mystery"]

def unknownGraph : GraphData := ⟨unknownNodes, []⟩

/-- C2, counterexample.  The claim says a graph containing a node of
unknown kind makes `generatePythonCode` fail rather than omit the node.  On
`unknownGraph` (a `dataLoader` plus a node of kind `mystery`) compilation
succeeds and the unknown node is dropped before validation and emission. -/
theorem c2_counterexample :
    (∃ n ∈ unknownGraph.nodes, n.kind ∉ registryKinds)
    ∧ (generatePythonCode store0 unknownGraph).isOk = true
    ∧ mlFilter unknownGraph.nodes = [exNode "d" "dataLoader"]
    ∧ ∀ n ∈ topologicalSort (mlFilter unknownGraph.nodes) unknownGraph.connections,
        n.id ≠ "u" := by
  refine ⟨by decide, by rfl, by decide, by decide⟩

lemma mlFilter_idem (nodes : List NodeData) : mlFilter (mlFilter nodes) = mlFilter nodes := by
  simp [mlFilter, List.filter_filter]

/-- C2, amended.  Unknown node kinds are silently filtered out before
validation and code generation: compiling a graph is the same as compiling
its ML-kind restriction, provided at least one ML node remains (when none
remain, the compilation is rejected with a no-ML-nodes error). -/
theorem c2_amended (store : String → Option String) (graph : GraphData)
    (h : mlFilter graph.nodes ≠ []) :
    generatePythonCode store graph =
      generatePythonCode store ⟨mlFilter graph.nodes, graph.connections⟩ := by
  have hnodes : graph.nodes ≠ [] := by
    intro he
    apply h
    simp [mlFilter, he]
  rw [generatePythonCode, generatePythonCode]
  dsimp only
  rw [mlFilter_idem]
  rw [if_neg (by simp [List.isEmpty_iff, hnodes]), if_neg (by simp [List.isEmpty_iff, h]),
    if_neg (by simp [List.isEmpty_iff, h])]

/-- C2 witness: the amended theorem applied to `unknownGraph`. -/
theorem c2_amended_witness :
    mlFilter unknownGraph.nodes ≠ []
    ∧ generatePythonCode store0 unknownGraph =
        generatePythonCode store0 ⟨mlFilter unknownGraph.nodes, unknownGraph.connections⟩ :=
  ⟨by decide, c2_amended store0 unknownGraph (by decide)⟩

/-! ## C6 — dangling connection endpoints are not validated -/

def danglingNodes : List NodeData := [exNode "d" "dataLoader", exNode "s" "scaler"]

def danglingConns : List ConnectionData := [exConn "ghost" "s" "data"]

def danglingGraph : GraphData := ⟨danglingNodes, danglingConns⟩

/-- C6, counterexample.  The claim says a connection whose source id does
not exist in the node set makes validation fail before any code is emitted.
On `danglingGraph` the connection source `ghost` exists nowhere, yet
validation succeeds and code is generated (the scheduler silently drops the
node fed by the dangling edge). -/
theorem c6_counterexample :
    (∃ c ∈ danglingConns, c.source ∉ nodeIds danglingNodes)
    ∧ validatePipelineStructure (mlFilter danglingNodes) danglingConns = .ok ()
    ∧ (generatePythonCode store0 danglingGraph).isOk = true
    ∧ topologicalSort (mlFilter danglingNodes) danglingConns = [exNode "d" "dataLoader"] := by
  refine ⟨by decide, by rfl, by rfl, by decide⟩

/-- C6, amended.  `validatePipelineStructure` succeeds exactly when
`ValidationRulesOk` holds — a characterisation in which no rule requires
connection endpoints to exist in the node set (nor checks cycles or
duplicate ids): dangling connections are not themselves validation
errors. -/
theorem c6_amended (nodes : List NodeData) (conns : List ConnectionData) :
    validatePipelineStructure nodes conns = .ok () ↔ ValidationRulesOk nodes conns :=
  validateStructure_ok nodes conns

/-! ## C9 — duplicate node ids are not rejected -/

def dupNodeA : NodeData := exNode "a" "dataLoader"

def dupNodeB : NodeData := ⟨"a", "second loader", "dataLoader", [], 0, 0⟩

def dupGraph : GraphData := ⟨[dupNodeA, dupNodeB], []⟩

/-- C9, counterexample.  The claim says the validator rejects every graph
whose node list has two distinct nodes sharing an id.  `dupGraph` has two
distinct `dataLoader` nodes with id `a`, yet validation succeeds and
compilation proceeds. -/
theorem c9_counterexample :
    (∃ n₁ ∈ dupGraph.nodes, ∃ n₂ ∈ dupGraph.nodes, n₁ ≠ n₂ ∧ n₁.id = n₂.id)
    ∧ validatePipelineStructure (mlFilter dupGraph.nodes) dupGraph.connections = .ok ()
    ∧ (generatePythonCode store0 dupGraph).isOk = true := by
  refine ⟨by decide, by rfl, by rfl⟩

/-- C9, amended.  `validatePipelineStructure` has no duplicate-id rule:
appending a duplicate of a present node (same id and kind) to a validating
node list leaves validation succeeding.  (The duplicate-id check of the
spec lives in the editor-layer `validatePipeline`, not here.) -/
theorem c9_amended (nodes : List NodeData) (conns : List ConnectionData)
    (n m : NodeData) (hm : m ∈ nodes) (hid : n.id = m.id) (hkind : n.kind = m.kind)
    (hok : validatePipelineStructure nodes conns = .ok ()) :
    validatePipelineStructure (nodes ++ [n]) conns = .ok () := by
  rw [validateStructure_ok] at hok ⊢
  obtain ⟨⟨w, hw, hwk⟩, hB, hC, hD, hE, hF⟩ := hok
  have hmem : ∀ x : NodeData, x ∈ nodes ++ [n] → x ∈ nodes ∨ x = n := by
    intro x hx
    rcases List.mem_append.mp hx with h | h
    · exact .inl h
    · exact .inr (List.mem_singleton.mp h)
  refine ⟨⟨w, List.mem_append_left _ hw, hwk⟩, ?_, ?_, ?_, ?_, ?_⟩
  · intro x hx hk
    rcases hmem x hx with h | h
    · exact hB x h hk
    · subst h
      rw [hid]
      rw [hkind] at hk
      exact hB m hm hk
  · intro x hx hk
    rcases hmem x hx with h | h
    · exact hC x h hk
    · subst h
      rw [hid]
      rw [hkind] at hk
      exact hC m hm hk
  · intro x hx hk
    rcases hmem x hx with h | h
    · exact hD x h hk
    · subst h
      rw [hid]
      rw [hkind] at hk
      exact hD m hm hk
  · intro x hx hk
    rcases hmem x hx with h | h
    · exact hE x h hk
    · subst h
      rw [hid]
      rw [hkind] at hk
      exact hE m hm hk
  · intro x hx hk
    rcases hmem x hx with h | h
    · exact hF x h hk
    · subst h
      rw [hid]
      rw [hkind] at hk
      exact hF m hm hk

/-- C9 witness: duplicating the loader of a one-node pipeline keeps
validation succeeding. -/
theorem c9_amended_witness :
    validatePipelineStructure ([dupNodeA] ++ [dupNodeB]) [] = .ok () :=
  c9_amended [dupNodeA] [] dupNodeB dupNodeA (by decide) (by decide) (by decide) (by rfl)

/-! ## C8 — later connections overwrite earlier ones in the index -/

lemma assocGet_cons {α : Type} (k'' k' : String) (v'' : α) (rest : List (String × α)) :
    assocGet ((k'', v'') :: rest) k' = if k'' = k' then some v'' else assocGet rest k' := by
  by_cases h : k'' = k'
  · rw [assocGet, List.find?_cons_of_pos _ (by simp [h]), if_pos h]
    rfl
  · rw [assocGet, List.find?_cons_of_neg _ (by simp [h]), if_neg h]
    rfl

lemma assocGet_assocSet {α : Type} (m : List (String × α)) (k k' : String) (v : α) :
    assocGet (assocSet m k v) k' = if k' = k then some v else assocGet m k' := by
  induction m with
  | nil =>
    rw [assocSet, assocGet_cons]
    by_cases h : k' = k
    · rw [if_pos (h ▸ rfl), if_pos h]
    · rw [if_neg (fun he => h he.symm), if_neg h]
  | cons p rest ih =>
    obtain ⟨k'', v''⟩ := p
    rw [assocSet]
    by_cases h1 : k'' = k
    · subst h1
      rw [if_pos rfl, assocGet_cons, assocGet_cons]
      by_cases h2 : k' = k''
      · rw [if_pos (h2 ▸ rfl), if_pos h2]
      · rw [if_neg (fun he => h2 he.symm), if_neg h2, if_neg (fun he => h2 he.symm)]
    · rw [if_neg h1, assocGet_cons, assocGet_cons, ih]
      by_cases h2 : k'' = k'
      · have h3 : ¬ k' = k := fun he => h1 (h2.trans he)
        rw [if_pos h2, if_neg h3, if_pos h2]
      · rw [if_neg h2, if_neg h2]

lemma connLookup_step (acc : List (String × List (String × ConnectionData)))
    (c : ConnectionData) (tgt inp : String) :
    connLookup (assocSet acc c.target
        (assocSet ((assocGet acc c.target).getD []) c.targetInput c)) tgt inp =
      if c.target = tgt ∧ c.targetInput = inp then some c else connLookup acc tgt inp := by
  rw [connLookup, assocGet_assocSet]
  by_cases h1 : tgt = c.target
  · rw [if_pos h1, Option.some_bind, assocGet_assocSet]
    by_cases h2 : inp = c.targetInput
    · rw [if_pos h2, if_pos ⟨h1.symm, h2.symm⟩]
    · rw [if_neg h2, if_neg (fun hh => h2 hh.2.symm), connLookup, h1]
      cases hacc : assocGet acc c.target with
      | none => rfl
      | some inner => rfl
  · rw [if_neg h1, if_neg (fun hh => h1 hh.1.symm), connLookup]

lemma connLookup_foldl (conns : List ConnectionData)
    (acc : List (String × List (String × ConnectionData))) (tgt inp : String) :
    connLookup (conns.foldl
        (fun index conn =>
          let inner := (assocGet index conn.target).getD []
          assocSet index conn.target (assocSet inner conn.targetInput conn)) acc) tgt inp =
      match conns.reverse.find? (fun c => c.target = tgt ∧ c.targetInput = inp) with
      | some c => some c
      | none => connLookup acc tgt inp := by
  induction conns generalizing acc with
  | nil => simp
  | cons c cs ih =>
    rw [List.foldl_cons, ih, List.reverse_cons, List.find?_append]
    cases hcs : cs.reverse.find? (fun c => c.target = tgt ∧ c.targetInput = inp) with
    | some d => simp [hcs, Option.or]
    | none =>
      simp only [hcs, Option.none_or]
      rw [connLookup_step]
      by_cases h : c.target = tgt ∧ c.targetInput = inp
      · rw [if_pos h]
        simp [List.find?, decide_eq_true_iff, h]
      · rw [if_neg h]
        have : (decide (c.target = tgt ∧ c.targetInput = inp)) = false := by
          simp [decide_eq_false_iff_not, h]
        simp [List.find?, this]

/-- C8, confirmed.  First conjunct: for every connection list, the
connection index resolves a `(target, targetInput)` pair to the LAST
connection of the list with that pair (the first match in the reversed
list); a second edge to the same input socket silently overwrites the
first.  Remaining conjuncts: a concrete graph with two connections feeding
the same `(t, data)` socket — the index returns the later one and
validation raises no error for the duplicate. -/
theorem c8_last_wins :
    (∀ (conns : List ConnectionData) (tgt inp : String),
      connLookup (indexConnections conns) tgt inp =
        conns.reverse.find? (fun c => c.target = tgt ∧ c.targetInput = inp))
    ∧ connLookup (indexConnections [exConn "x" "t" "data", exConn "y" "t" "data"]) "t" "data" =
        some (exConn "y" "t" "data")
    ∧ validatePipelineStructure
        [exNode "d" "dataLoader", exNode "x" "scaler", exNode "y" "scaler", exNode "t" "scaler"]
        [exConn "x" "t" "data", exConn "y" "t" "data"] = .ok () := by
  refine ⟨fun conns tgt inp => ?_, by rfl, by rfl⟩
  rw [indexConnections, connLookup_foldl]
  cases h : conns.reverse.find? (fun c => c.target = tgt ∧ c.targetInput = inp) with
  | some d => rfl
  | none => simp [connLookup, assocGet]

/-! ## C3 — the variable-name allocator -/

/-- Value of a decimal digit character. -/
def digitVal (c : Char) : Nat := c.toNat - 48

/-- Little-endian decimal parsing, the left inverse of `decAux`. -/
def parseDec : List Char → Nat
  | [] => 0
  | c :: cs => digitVal c + 10 * parseDec cs

lemma digitVal_digitChar10 (d : Nat) (h : d < 10) : digitVal (digitChar10 d) = d := by
  rw [digitVal, digitChar10]
  interval_cases d <;> decide

lemma parseDec_decAux : ∀ (fuel n : Nat), n < fuel → parseDec (decAux fuel n) = n := by
  intro fuel
  induction fuel with
  | zero => omega
  | succ f ih =>
    intro n hn
    rw [decAux]
    by_cases h : n < 10
    · rw [if_pos h, parseDec, parseDec, digitVal_digitChar10 n h]
      omega
    · rw [if_neg h, parseDec, digitVal_digitChar10 (n % 10) (Nat.mod_lt n (by omega)),
        ih (n / 10) (by omega)]
      exact Nat.mod_add_div n 10

lemma decRepr_inj (a b : Nat) (h : decRepr a = decRepr b) : a = b := by
  rw [decRepr, decRepr] at h
  have hl : (decAux (a + 1) a).reverse = (decAux (b + 1) b).reverse := congrArg String.data h
  have hd : decAux (a + 1) a = decAux (b + 1) b := List.reverse_injective hl
  have := parseDec_decAux (a + 1) a (by omega)
  rw [hd, parseDec_decAux (b + 1) b (by omega)] at this
  omega

lemma decAux_ne_nil (n : Nat) : decAux (n + 1) n ≠ [] := by
  rw [decAux]
  by_cases h : n < 10
  · rw [if_pos h]; exact List.cons_ne_nil _ _
  · rw [if_neg h]; exact List.cons_ne_nil _ _

lemma decRepr_length_pos (n : Nat) : 0 < (decRepr n).length := by
  show 0 < (decRepr n).data.length
  rw [decRepr]
  have := decAux_ne_nil n
  cases hh : decAux (n + 1) n with
  | nil => exact absurd hh this
  | cons c cs => simp [hh]

lemma mkVarName_inj (base : String) (i j : Nat) (hne : i ≠ j) :
    mkVarName base i ≠ mkVarName base j := by
  rw [mkVarName, mkVarName]
  by_cases hi : i = 0
  · subst hi
    rw [if_pos rfl, if_neg (Ne.symm hne)]
    intro he
    have := congrArg String.length he
    rw [String.length_append] at this
    have := decRepr_length_pos (j + 1)
    omega
  · rw [if_neg hi]
    by_cases hj : j = 0
    · subst hj
      rw [if_pos rfl]
      intro he
      have := congrArg String.length he
      rw [String.length_append] at this
      have := decRepr_length_pos (i + 1)
      omega
    · rw [if_neg hj]
      intro he
      have hdata := congrArg String.data he
      rw [String.data_append, String.data_append] at hdata
      have htail := List.append_cancel_left hdata
      have : decRepr (i + 1) = decRepr (j + 1) := String.ext htail
      exact hne (by have := decRepr_inj _ _ this; omega)

lemma lookupVar_cons (i nm : String) (rest : List (String × String)) (v : String) :
    lookupVar ((i, nm) :: rest) v = if i = v then some nm else lookupVar rest v := by
  by_cases h : i = v
  · rw [lookupVar, List.find?_cons_of_pos _ (by simp [h]), if_pos h]
    rfl
  · rw [lookupVar, List.find?_cons_of_neg _ (by simp [h]), if_neg h]
    rfl

/-- Lower bound: every node of `l` receives a name built from its kind's
base name at a counter at least the incoming counter value. -/
lemma buildVarMap_lb (l : List NodeData) (idx : String → Nat) (n : NodeData)
    (hnd : (nodeIds l).Nodup) (hn : n ∈ l) :
    ∃ j, idx n.kind ≤ j ∧
      lookupVar (buildVarMapAux l idx) n.id = some (mkVarName (kindBaseName n.kind) j) := by
  induction l generalizing idx with
  | nil => cases hn
  | cons h rest ih =>
    rw [buildVarMapAux]
    rw [nodeIds, List.map_cons, List.nodup_cons] at hnd
    rcases List.mem_cons.mp hn with he | hmem
    · subst he
      refine ⟨idx n.kind, le_refl _, ?_⟩
      rw [getSimpleVarName, lookupVar_cons, if_pos rfl]
    · have hne : h.id ≠ n.id := by
        intro he
        exact hnd.1 (he ▸ List.mem_map_of_mem (·.id) hmem)
      rw [getSimpleVarName, lookupVar_cons, if_neg hne]
      rcases ih (fun k => if k = h.kind then idx h.kind + 1 else idx k) hnd.2 hmem with
        ⟨j, hj, hl⟩
      refine ⟨j, le_trans ?_ hj, hl⟩
      by_cases hk : n.kind = h.kind
      · rw [if_pos hk, hk]; omega
      · rw [if_neg hk]

/-- Distinct nodes of the same kind receive distinct symbols. -/
lemma buildVarMap_same_kind_distinct (l : List NodeData) (idx : String → Nat)
    (hnd : (nodeIds l).Nodup) (n₁ n₂ : NodeData) (h₁ : n₁ ∈ l) (h₂ : n₂ ∈ l)
    (hk : n₁.kind = n₂.kind) (hne : n₁.id ≠ n₂.id) :
    lookupVar (buildVarMapAux l idx) n₁.id ≠ lookupVar (buildVarMapAux l idx) n₂.id := by
  induction l generalizing idx with
  | nil => cases h₁
  | cons h rest ih =>
    rw [nodeIds, List.map_cons, List.nodup_cons] at hnd
    have hrest : ∀ m : NodeData, m ∈ rest → h.id ≠ m.id := by
      intro m hm he
      exact hnd.1 (he ▸ List.mem_map_of_mem (·.id) hm)
    rw [buildVarMapAux, getSimpleVarName]
    rcases List.mem_cons.mp h₁ with he₁ | hm₁ <;> rcases List.mem_cons.mp h₂ with he₂ | hm₂
    · exact absurd (he₁ ▸ he₂ ▸ rfl) hne
    · subst he₁
      rw [lookupVar_cons, lookupVar_cons, if_pos rfl, if_neg (hrest n₂ hm₂)]
      rcases buildVarMap_lb rest
        (fun k => if k = n₁.kind then idx n₁.kind + 1 else idx k) n₂ hnd.2 hm₂ with ⟨j, hj, hl⟩
      dsimp only at hj hl ⊢
      rw [← hk] at hj
      rw [if_pos rfl] at hj
      rw [hl, ← hk]
      intro he
      have := Option.some.inj he
      exact mkVarName_inj (kindBaseName n₁.kind) (idx n₁.kind) j (by omega) this
    · subst he₂
      rw [lookupVar_cons, lookupVar_cons, if_neg (fun he => hne he.symm), if_pos rfl]
      rcases buildVarMap_lb rest
        (fun k => if k = n₂.kind then idx n₂.kind + 1 else idx k) n₁ hnd.2 hm₁ with ⟨j, hj, hl⟩
      dsimp only at hj hl ⊢
      rw [hk] at hj
      rw [if_pos rfl] at hj
      rw [hl, hk]
      intro he
      have := Option.some.inj he
      exact mkVarName_inj (kindBaseName n₂.kind) j (idx n₂.kind) (by omega) this
    · rw [lookupVar_cons, lookupVar_cons, if_neg (hrest n₁ hm₁), if_neg (hrest n₂ hm₂)]
      exact ih _ hnd.2 hm₁ hm₂

/-- The graph used for the C3 counterexample: a loader feeding a classifier
and a regressor. -/
def allocNodes : List NodeData :=
  [exNode "d" "dataLoader", exNode "c" "classifier", exNode "r" "regressor"]

def allocConns : List ConnectionData := [exConn "d" "c" "train", exConn "d" "r" "train"]

/-- C3, counterexample.  The claim says the allocator assigns distinct
symbols to distinct node ids.  In the schedule of `allocNodes` the
classifier `c` and the regressor `r` are distinct nodes, yet both are
assigned the symbol `model`: the per-kind occurrence counters are
independent, while `classifier` and `regressor` share the base name. -/
theorem c3_counterexample :
    lookupVar (buildVarMap (topologicalSort allocNodes allocConns)) "c" = some "model"
    ∧ lookupVar (buildVarMap (topologicalSort allocNodes allocConns)) "r" = some "model"
    ∧ ("c" : String) ≠ "r" := by
  refine ⟨by rfl, by rfl, by decide⟩

/-- C3, amended.  The allocator's symbols are unique per kind, not
globally: in any schedule with pairwise-distinct node ids, two distinct
nodes of the SAME kind always receive distinct symbols (`base`, `base2`,
`base3`, …); distinct nodes of different kinds can collide when their kinds
share a base name (`classifier`/`regressor` both map to `model`). -/
theorem c3_amended (sortedNodes : List NodeData) (hnd : (nodeIds sortedNodes).Nodup)
    (n₁ n₂ : NodeData) (h₁ : n₁ ∈ sortedNodes) (h₂ : n₂ ∈ sortedNodes)
    (hk : n₁.kind = n₂.kind) (hne : n₁.id ≠ n₂.id) :
    lookupVar (buildVarMap sortedNodes) n₁.id ≠ lookupVar (buildVarMap sortedNodes) n₂.id :=
  buildVarMap_same_kind_distinct sortedNodes (fun _ => 0) hnd n₁ n₂ h₁ h₂ hk hne

/-- C3 witness: two classifiers receive `model` and `model2`. -/
theorem c3_amended_witness :
    lookupVar (buildVarMap [exNode "c" "classifier", exNode "c2" "classifier"]) "c" ≠
      lookupVar (buildVarMap [exNode "c" "classifier", exNode "c2" "classifier"]) "c2" :=
  c3_amended [exNode "c" "classifier", exNode "c2" "classifier"] (by decide)
    (exNode "c" "classifier") (exNode "c2" "classifier") (by decide) (by decide)
    (by decide) (by decide)

/-! ## C7 — what the `predict` fragment references -/

/-- The exact fragment the `predict` case emits when both inputs are
connected, as a function of the resolved model symbol. -/
def predictFragment (modelVar : String) : String :=
  "# 예측 수행\ny_pred = " ++ modelVar ++
  ".predict(X_test)\nprint(f\"예측 완료: \x7blen(y_pred)\x7d개 샘플\")\nprint(f\"처음 10개 예측: \x7by_pred[:10]\x7d\")"

/-- Fixture for C7: a model and a data-split feeding a predict node, the
split's symbol being `split`. -/
def predIndex : List (String × List (String × ConnectionData)) :=
  indexConnections [exConn "m" "p" "model", exConn "sp" "p" "test"]

def predVarMap : List (String × String) := [("m", "model"), ("sp", "split")]

set_option maxRecDepth 4000 in
/-- C7, counterexample.  The claim says the predict fragment references
both the upstream model symbol and the upstream test-data symbol.  The
emitted fragment references the model symbol but uses the fixed name
`X_test` for the test data: the test-data symbol `split` of the connected
upstream node occurs nowhere in the fragment. -/
theorem c7_counterexample :
    nodeToCode store0 (exNode "p" "predict") predIndex
        (findNodeLast [exNode "m" "classifier", exNode "sp" "dataSplit", exNode "p" "predict"])
        "pred" predVarMap = predictFragment "model"
    ∧ (connLookup predIndex "p" "test").map (·.source) = some "sp"
    ∧ lookupVar predVarMap "sp" = some "split"
    ∧ ¬ ("split".data <:+: (predictFragment "model").data) := by
  refine ⟨by rfl, by rfl, by rfl, by decide⟩

/-- C7, amended.  For a predict node with both `model` and `test`
connections present in the index, the emitted fragment is exactly
`predictFragment` applied to the model symbol resolved through the
connection index; the test-data side is NOT resolved through the index —
the fragment always reads the conventional variable `X_test`, whatever the
test connection or its source's symbol is. -/
theorem c7_amended (store : String → Option String) (node : NodeData)
    (connectionIndex : List (String × List (String × ConnectionData)))
    (nodeMap : String → Option NodeData) (varName : String)
    (varNameMap : List (String × String)) (modelConn testConn : ConnectionData)
    (hk : node.kind = "predict")
    (hm : connLookup connectionIndex node.id "model" = some modelConn)
    (ht : connLookup connectionIndex node.id "test" = some testConn) :
    nodeToCode store node connectionIndex nodeMap varName varNameMap =
      predictFragment ((lookupVar varNameMap modelConn.source).getD "model") := by
  rw [nodeToCode]
  dsimp only
  rw [hk]
  rw [if_neg (by decide), if_neg (by decide), if_neg (by decide), if_neg (by decide),
    if_neg (by decide), if_neg (by decide), if_neg (by decide), if_neg (by decide),
    if_pos rfl, hm, ht]
  rfl

/-- C7 witness: the amended theorem at the concrete fixture. -/
theorem c7_amended_witness :
    connLookup predIndex "p" "model" = some (exConn "m" "p" "model")
    ∧ nodeToCode store0 (exNode "p" "predict") predIndex
        (findNodeLast [exNode "m" "classifier", exNode "sp" "dataSplit", exNode "p" "predict"])
        "pred" predVarMap =
      predictFragment ((lookupVar predVarMap (exConn "m" "p" "model").source).getD "model") :=
  ⟨by rfl,
    c7_amended store0 (exNode "p" "predict") predIndex
      (findNodeLast [exNode "m" "classifier", exNode "sp" "dataSplit", exNode "p" "predict"])
      "pred" predVarMap (exConn "m" "p" "model") (exConn "sp" "p" "test")
      (by rfl) (by rfl) (by rfl)⟩

/-! ## C5 — determinism / isolation of the generation timestamp -/

lemma escList_append (l₁ l₂ : List Char) : escList (l₁ ++ l₂) = escList l₁ ++ escList l₂ := by
  induction l₁ with
  | nil => simp [escList]
  | cons c cs ih => simp [escList, ih, String.append_assoc]

lemma jsonEscape_append (s₁ s₂ : String) :
    jsonEscape (s₁ ++ s₂) = jsonEscape s₁ ++ jsonEscape s₂ := by
  rw [jsonEscape, jsonEscape, jsonEscape, String.data_append, escList_append]

/-- Everything of the serialised notebook that precedes the escaped
timestamp: the opening of the top-level object, the `cells` key, and the
markdown title cell up to (and including) `Generated on: `. -/
def nbPre (pipelineName : String) : String :=
  "\x7b\n" ++ (jIndent 1 ++ jsonStr "cells" ++ ": " ++ ("[\n" ++ (jIndent 2 ++
    ("\x7b\n" ++
      (jIndent 3 ++ jsonStr "cell_type" ++ ": " ++ jsonStr "markdown" ++ (",\n" ++
        (jIndent 3 ++ jsonStr "metadata" ++ ": " ++ "\x7b\x7d" ++ (",\n" ++
          (jIndent 3 ++ jsonStr "source" ++ ": " ++ ("[\n" ++ (jIndent 4 ++
            jsonStr ("# " ++ pipelineName ++ "\n") ++ (",\n" ++ (jIndent 4 ++ jsonStr "\n" ++
            (",\n" ++ (jIndent 4 ++
              jsonStr "This notebook was auto-generated from a visual ML pipeline builder.\n" ++
              (",\n" ++ (jIndent 4 ++ jsonStr "\n" ++ (",\n" ++ (jIndent 4 ++ ("\"" ++
                jsonEscape "Generated on: "))))))))))))))))))))

/-- Everything of the serialised notebook that follows the escaped
timestamp: the close of the markdown cell, the code cells (one per
paragraph of `code`), and the fixed kernel metadata. -/
def nbPost (code : String) : String :=
  jsonEscape "\n" ++ "\"" ++ ("\n" ++ (jIndent 3 ++ "]" ++ ("\n" ++ (jIndent 2 ++ "\x7d" ++
    ((if (renderItems 2 ((code.splitOn "\n\n").map codeCell)).isEmpty then "" else
      ",\n" ++ joinSep ",\n" (renderItems 2 ((code.splitOn "\n\n").map codeCell))) ++
    ("\n" ++ (jIndent 1 ++ "]" ++ (",\n" ++ (joinSep ",\n" (renderFields 1
      [("metadata", .jobj [
          ("kernelspec", .jobj [("display_name", .jstr "Python 3"),
            ("language", .jstr "python"), ("name", .jstr "python3")]),
          ("language_info", .jobj [("name", .jstr "python"), ("version", .jstr "3.8.0")])]),
        ("nbformat", .jnum 4), ("nbformat_minor", .jnum 4)]) ++
      ("\n" ++ (jIndent 0 ++ "\x7d")))))))))))

lemma joinSep_cons (sep y : String) (ys : List String) :
    joinSep sep (y :: ys) = y ++ (if ys.isEmpty then "" else sep ++ joinSep sep ys) := by
  cases ys with
  | nil => simp [joinSep]
  | cons z zs => simp [joinSep, String.append_assoc]

lemma render_jstr (d : Nat) (s : String) : render d (.jstr s) = jsonStr s := rfl

lemma render_jnum (d : Nat) (n : Int) : render d (.jnum n) = intRepr n := rfl

lemma render_jarr_cons (d : Nat) (x : JVal) (xs : List JVal) :
    render d (.jarr (x :: xs)) =
      "[\n" ++ joinSep ",\n" (renderItems (d + 1) (x :: xs)) ++ "\n" ++ jIndent d ++ "]" := rfl

lemma render_jobj_cons (d : Nat) (f : String × JVal) (fs : List (String × JVal)) :
    render d (.jobj (f :: fs)) =
      "\x7b\n" ++ joinSep ",\n" (renderFields (d + 1) (f :: fs)) ++ "\n" ++ jIndent d ++
        "\x7d" := rfl

lemma render_jobj_nil (d : Nat) : render d (.jobj []) = "\x7b\x7d" := rfl

lemma renderItems_cons (d : Nat) (x : JVal) (xs : List JVal) :
    renderItems d (x :: xs) = (jIndent d ++ render d x) :: renderItems d xs := rfl

lemma renderItems_nil (d : Nat) : renderItems d [] = [] := rfl

lemma renderFields_cons (d : Nat) (k : String) (v : JVal) (fs : List (String × JVal)) :
    renderFields d ((k, v) :: fs) =
      (jIndent d ++ jsonStr k ++ ": " ++ render d v) :: renderFields d fs := rfl

lemma renderFields_nil (d : Nat) : renderFields d [] = [] := rfl

set_option maxRecDepth 100000 in
/-- The serialised notebook splits around the escaped timestamp, with a
prefix depending only on the pipeline name and a suffix depending only on
the generated code body. -/
lemma notebook_render_split (pipelineName generatedOn code : String) :
    render 0 (notebookJson pipelineName generatedOn code) =
      nbPre pipelineName ++ jsonEscape generatedOn ++ nbPost code := by
  simp only [notebookJson, markdownCell, nbPre, nbPost, render_jobj_cons, render_jobj_nil,
    render_jarr_cons, render_jstr, render_jnum, renderFields_cons, renderFields_nil,
    renderItems_cons, renderItems_nil, joinSep_cons, List.isEmpty_cons, List.isEmpty_nil,
    Bool.false_eq_true, if_false, if_true, jsonStr, jsonEscape_append, String.append_assoc,
    Nat.reduceAdd]
  rfl

/-- C5, confirmed.  The code body produced by `generatePythonCode` is a
pure function of the graph and the uploaded-file store (its definition
takes no timestamp).  The two wrappers isolate their run dependence to the
header material: the script is exactly `scriptHeader` (the only consumer of
the generation time) prepended to the unchanged code body, and the
notebook serialisation is `nbPre ++ jsonEscape t ++ nbPost`, so two runs at
times `t₁, t₂` differ only inside the markdown title cell; failures are
timestamp-independent as well. -/
theorem c5_determinism (store : String → Option String) (graph : GraphData)
    (pipelineName : String) :
    (∀ t, generatePythonScript t store graph pipelineName =
        (generatePythonCode store graph).map (fun code => scriptHeader pipelineName t ++ code))
    ∧ (∀ code, generatePythonCode store graph = .ok code →
        ∀ t, generateJupyterNotebook t store graph pipelineName =
          .ok (nbPre pipelineName ++ jsonEscape t ++ nbPost code))
    ∧ (∀ e, generatePythonCode store graph = .error e →
        ∀ t, generateJupyterNotebook t store graph pipelineName = .error e ∧
          generatePythonScript t store graph pipelineName = .error e) := by
  refine ⟨fun t => ?_, fun code h t => ?_, fun e h t => ⟨?_, ?_⟩⟩
  · rw [generatePythonScript]
    cases h : generatePythonCode store graph with
    | error e => rfl
    | ok code => rfl
  · rw [generateJupyterNotebook, h]
    exact congrArg Except.ok (notebook_render_split pipelineName t code)
  · rw [generateJupyterNotebook, h]
  · rw [generatePythonScript, h]

/-- The code body `generatePythonCode` produces for a single default
`dataLoader` node with no uploaded file content. -/
def loaderOnlyCode : String :=
  "import pandas as pd\nimport numpy as np\n\n# ========================================\n# ML Pipeline Auto-Generated Code\n# ========================================\n\n# Load Data from file\ndata = pd.read_csv(\x27data.csv\x27)\n\n# 컬럼명 정리 (공백 및 특수문자 제거)\ndata.columns = data.columns.str.strip()\ndata.columns = [col.split(\x27(\x27)[0].strip().replace(\x27#\x27, \x27\x27).replace(\x27 \x27, \x27_\x27).lower() for col in data.columns]\n\nprint(f\"Data loaded: \x7bdata.shape\x7d\")\nprint(f\"Columns: \x7bdata.columns.tolist()\x7d\")\nprint(\"\\nFirst 5 rows:\")\nprint(data.head())\n\n# ========================================\n# Pipeline Complete!\n# ========================================\n"

set_option maxRecDepth 8000 in
/-- C5 witness: the notebook decomposition at a concrete one-node graph. -/
theorem c5_determinism_witness :
    generatePythonCode store0 ⟨[exNode "d" "dataLoader"], []⟩ = .ok loaderOnlyCode
    ∧ ∀ t, generateJupyterNotebook t store0 ⟨[exNode "d" "dataLoader"], []⟩ "ML Pipeline" =
        .ok (nbPre "ML Pipeline" ++ jsonEscape t ++ nbPost loaderOnlyCode) :=
  ⟨by rfl,
    (c5_determinism store0 ⟨[exNode "d" "dataLoader"], []⟩ "ML Pipeline").2.1
      loaderOnlyCode (by rfl)⟩

/-! ## The Kahn loop: basic lemmas -/

lemma relax_deg (vs : List String) (deg : String → Int) (v : String) :
    (relax deg vs).1 v = deg v - vs.count v := by
  induction vs generalizing deg with
  | nil => simp [relax]
  | cons w ws ih =>
    rw [relax]
    dsimp only
    rw [ih]
    rw [List.count_cons]
    by_cases h : w = v
    · subst h
      rw [updInt, if_pos rfl]
      simp
      omega
    · rw [updInt, if_neg (fun he => h he.symm)]
      simp [h]

lemma relax_deg_le (vs : List String) (deg : String → Int) (v : String) :
    (relax deg vs).1 v ≤ deg v := by
  rw [relax_deg]
  have : (0 : Int) ≤ vs.count v := Int.ofNat_nonneg _
  omega

lemma relax_pushed_mem (vs : List String) (deg : String → Int) (v : String)
    (h : v ∈ (relax deg vs).2) :
    v ∈ vs ∧ 1 ≤ deg v ∧ (relax deg vs).1 v ≤ 0 := by
  induction vs generalizing deg with
  | nil => simp [relax] at h
  | cons w ws ih =>
    rw [relax] at h ⊢
    dsimp only at h ⊢
    by_cases hd : deg w - 1 = 0
    · rw [if_pos hd] at h
      rcases List.mem_cons.mp h with he | hm
      · subst he
        refine ⟨List.mem_cons_self _ _, by omega, ?_⟩
        rw [relax_deg, updInt, if_pos rfl]
        have : (0 : Int) ≤ ws.count v := Int.ofNat_nonneg _
        omega
      · rcases ih _ hm with ⟨h1, h2, h3⟩
        refine ⟨List.mem_cons_of_mem _ h1, ?_, h3⟩
        by_cases he : v = w
        · subst he
          rw [updInt, if_pos rfl] at h2
          omega
        · rw [updInt, if_neg he] at h2
          exact h2
    · rw [if_neg hd] at h
      rcases ih _ h with ⟨h1, h2, h3⟩
      refine ⟨List.mem_cons_of_mem _ h1, ?_, h3⟩
      by_cases he : v = w
      · subst he
        rw [updInt, if_pos rfl] at h2
        omega
      · rw [updInt, if_neg he] at h2
        exact h2

lemma relax_pushed_of (vs : List String) (deg : String → Int) (v : String)
    (hm : v ∈ vs) (h1 : 1 ≤ deg v) (h2 : (relax deg vs).1 v ≤ 0) :
    v ∈ (relax deg vs).2 := by
  induction vs generalizing deg with
  | nil => cases hm
  | cons w ws ih =>
    rw [relax]
    dsimp only
    rw [relax] at h2
    dsimp only at h2
    by_cases he : v = w
    · subst he
      by_cases hd : deg v - 1 = 0
      · rw [if_pos hd]
        exact List.mem_cons_self _ _
      · rw [if_neg hd]
        have hws : v ∈ ws := by
          rw [relax_deg, updInt, if_pos rfl] at h2
          have : 0 < ws.count v := by omega
          exact List.count_pos_iff_mem.mp (by exact_mod_cast this)
        refine ih _ hws ?_ h2
        rw [updInt, if_pos rfl]
        omega
    · have hws : v ∈ ws := by
        rcases List.mem_cons.mp hm with h | h
        · exact absurd h he
        · exact h
      have hd1 : updInt deg w (deg w - 1) v = deg v := by
        rw [updInt, if_neg he]
      by_cases hd : deg w - 1 = 0
      · rw [if_pos hd]
        exact List.mem_cons_of_mem _ (ih _ hws (by rw [hd1]; exact h1) h2)
      · rw [if_neg hd]
        exact ih _ hws (by rw [hd1]; exact h1) h2

lemma relax_pushed_nodup (vs : List String) (deg : String → Int) :
    (relax deg vs).2.Nodup := by
  induction vs generalizing deg with
  | nil => simp [relax]
  | cons w ws ih =>
    rw [relax]
    dsimp only
    by_cases hd : deg w - 1 = 0
    · rw [if_pos hd, List.nodup_cons]
      refine ⟨fun hmem => ?_, ih _⟩
      have := (relax_pushed_mem ws _ w hmem).2.1
      rw [updInt, if_pos rfl] at this
      omega
    · rw [if_neg hd]
      exact ih _

/-! Properties of `firstDedup` and `findNodeLast`. -/

lemma firstDedupAux_mem (l : List String) :
    ∀ (seen : List String) (v : String), v ∈ firstDedupAux seen l ↔ v ∈ l ∧ v ∉ seen := by
  induction l with
  | nil => simp [firstDedupAux]
  | cons x xs ih =>
    intro seen v
    rw [firstDedupAux]
    by_cases hx : x ∈ seen
    · rw [if_pos hx, ih]
      constructor
      · rintro ⟨h1, h2⟩
        exact ⟨List.mem_cons_of_mem _ h1, h2⟩
      · rintro ⟨h1, h2⟩
        rcases List.mem_cons.mp h1 with he | hm
        · exact absurd (he ▸ hx) h2
        · exact ⟨hm, h2⟩
    · rw [if_neg hx]
      constructor
      · intro h
        rcases List.mem_cons.mp h with he | hm
        · exact ⟨he ▸ List.mem_cons_self _ _, he ▸ hx⟩
        · rcases (ih _ _).mp hm with ⟨h1, h2⟩
          refine ⟨List.mem_cons_of_mem _ h1, fun hs => h2 (List.mem_cons_of_mem _ hs)⟩
      · rintro ⟨h1, h2⟩
        rcases List.mem_cons.mp h1 with he | hm
        · exact he ▸ List.mem_cons_self _ _
        · by_cases hvx : v = x
          · exact hvx ▸ List.mem_cons_self _ _
          · exact List.mem_cons_of_mem _
              ((ih _ _).mpr ⟨hm, fun hs => (List.mem_cons.mp hs).elim hvx h2⟩)

lemma firstDedup_mem (l : List String) (v : String) : v ∈ firstDedup l ↔ v ∈ l := by
  rw [firstDedup, firstDedupAux_mem]
  simp

lemma firstDedupAux_nodup (l : List String) : ∀ seen, (firstDedupAux seen l).Nodup := by
  induction l with
  | nil => intro seen; simp [firstDedupAux]
  | cons x xs ih =>
    intro seen
    rw [firstDedupAux]
    by_cases hx : x ∈ seen
    · rw [if_pos hx]; exact ih _
    · rw [if_neg hx, List.nodup_cons]
      refine ⟨fun hmem => ?_, ih _⟩
      exact ((firstDedupAux_mem xs _ x).mp hmem).2 (List.mem_cons_self _ _)

lemma firstDedup_nodup (l : List String) : (firstDedup l).Nodup := firstDedupAux_nodup l []

lemma firstDedupAux_length_le (l : List String) :
    ∀ seen, (firstDedupAux seen l).length ≤ l.length := by
  induction l with
  | nil => intro seen; simp [firstDedupAux]
  | cons x xs ih =>
    intro seen
    rw [firstDedupAux]
    by_cases hx : x ∈ seen
    · rw [if_pos hx]
      exact le_trans (ih _) (by simp)
    · rw [if_neg hx, List.length_cons]
      exact Nat.succ_le_succ (ih _)

lemma firstDedup_length_le (l : List String) : (firstDedup l).length ≤ l.length :=
  firstDedupAux_length_le l []

lemma foldl_findLast (l : List NodeData) (u : String) (acc : Option NodeData) :
    l.foldl (fun acc n => if n.id = u then some n else acc) acc =
      match l.reverse.find? (fun n => n.id = u) with
      | some n => some n
      | none => acc := by
  induction l generalizing acc with
  | nil => rfl
  | cons x xs ih =>
    rw [List.foldl_cons, ih, List.reverse_cons, List.find?_append]
    cases hxs : xs.reverse.find? (fun n => decide (n.id = u)) with
    | some d => rfl
    | none =>
      simp only [Option.none_or]
      by_cases h : x.id = u
      · rw [if_pos h]
        simp [List.find?, h]
      · rw [if_neg h]
        simp [List.find?, h]

lemma findNodeLast_eq_find (nodes : List NodeData) (u : String) :
    findNodeLast nodes u = nodes.reverse.find? (fun n => n.id = u) := by
  rw [findNodeLast, foldl_findLast]
  cases h : nodes.reverse.find? (fun n => decide (n.id = u)) with
  | some n => rfl
  | none => rfl

lemma findNodeLast_some (nodes : List NodeData) (u : String) (n : NodeData)
    (h : findNodeLast nodes u = some n) : n ∈ nodes ∧ n.id = u := by
  rw [findNodeLast_eq_find] at h
  refine ⟨List.mem_reverse.mp (List.mem_of_find?_eq_some h), ?_⟩
  have := List.find?_some h
  rwa [decide_eq_true_iff] at this

lemma findNodeLast_mem_ids (nodes : List NodeData) (u : String) (h : u ∈ nodeIds nodes) :
    ∃ n, findNodeLast nodes u = some n ∧ n ∈ nodes ∧ n.id = u := by
  rcases List.mem_map.mp h with ⟨m, hm, hmu⟩
  cases hf : findNodeLast nodes u with
  | none =>
    rw [findNodeLast_eq_find, List.find?_eq_none] at hf
    exact absurd (by simpa using hmu) (hf m (List.mem_reverse.mpr hm))
  | some n => exact ⟨n, rfl, findNodeLast_some nodes u n hf⟩

/-! ## C10 — the scheduler is safe on arbitrary input -/

lemma kahnLoopFuel_zero (nodes : List NodeData) (conns : List ConnectionData)
    (deg : String → Int) (queue : List String) (sorted : List NodeData) :
    kahnLoopFuel nodes conns 0 deg queue sorted = sorted := rfl

lemma kahnLoopFuel_nil (nodes : List NodeData) (conns : List ConnectionData)
    (fuel : Nat) (deg : String → Int) (sorted : List NodeData) :
    kahnLoopFuel nodes conns (fuel + 1) deg [] sorted = sorted := rfl

lemma kahnLoopFuel_cons (nodes : List NodeData) (conns : List ConnectionData)
    (fuel : Nat) (deg : String → Int) (u : String) (rest : List String)
    (sorted : List NodeData) :
    kahnLoopFuel nodes conns (fuel + 1) deg (u :: rest) sorted =
      kahnLoopFuel nodes conns fuel (relax deg (adjOf nodes conns u)).1
        (rest ++ (relax deg (adjOf nodes conns u)).2)
        (match findNodeLast nodes u with
          | some n => sorted ++ [n]
          | none => sorted) := rfl

/-- Safety of the loop on arbitrary states: given that every already-seen
id (`D` = dequeued so far, plus the queue) has non-positive in-degree and
the seen ids are pairwise distinct, the loop emits only nodes of the input
list and never emits an id twice. -/
lemma kahn_safety (nodes : List NodeData) (conns : List ConnectionData) :
    ∀ (fuel : Nat) (deg : String → Int) (queue : List String) (sorted : List NodeData)
      (D : List String),
      (D ++ queue).Nodup →
      (∀ v ∈ D ++ queue, deg v ≤ 0) →
      (∀ v ∈ sorted.map (·.id), v ∈ D) →
      (sorted.map (·.id)).Nodup →
      (∀ n ∈ sorted, n ∈ nodes) →
      (∀ n ∈ kahnLoopFuel nodes conns fuel deg queue sorted, n ∈ nodes) ∧
        ((kahnLoopFuel nodes conns fuel deg queue sorted).map (·.id)).Nodup := by
  intro fuel
  induction fuel with
  | zero =>
    intro deg queue sorted D _ _ _ hsnd hsub
    rw [kahnLoopFuel_zero]
    exact ⟨hsub, hsnd⟩
  | succ f ih =>
    intro deg queue sorted D hnd hle hsD hsnd hsub
    cases queue with
    | nil =>
      rw [kahnLoopFuel_nil]
      exact ⟨hsub, hsnd⟩
    | cons u rest =>
      rw [kahnLoopFuel_cons]
      have huD : u ∉ D := by
        rcases (List.nodup_append).mp hnd with ⟨-, -, hdisj⟩
        intro hu
        exact hdisj hu (List.mem_cons_self _ _)
      have hfresh : ∀ v ∈ (relax deg (adjOf nodes conns u)).2, v ∉ D ++ u :: rest := by
        intro v hv hmem
        have h1 := (relax_pushed_mem _ _ _ hv).2.1
        have := hle v hmem
        omega
      have hnd' : ((D ++ [u]) ++ (rest ++ (relax deg (adjOf nodes conns u)).2)).Nodup := by
        have heq : (D ++ [u]) ++ (rest ++ (relax deg (adjOf nodes conns u)).2) =
            (D ++ u :: rest) ++ (relax deg (adjOf nodes conns u)).2 := by simp
        rw [heq, List.nodup_append]
        exact ⟨hnd, relax_pushed_nodup _ _, fun v hv hv2 => hfresh v hv2 hv⟩
      have hle' : ∀ v ∈ (D ++ [u]) ++ (rest ++ (relax deg (adjOf nodes conns u)).2),
          (relax deg (adjOf nodes conns u)).1 v ≤ 0 := by
        intro v hv
        have hv' : v ∈ D ++ u :: rest ∨ v ∈ (relax deg (adjOf nodes conns u)).2 := by
          simp only [List.mem_append, List.mem_cons, List.mem_singleton] at hv ⊢
          tauto
        rcases hv' with hv' | hv'
        · exact le_trans (relax_deg_le _ _ _) (hle v hv')
        · exact (relax_pushed_mem _ _ _ hv').2.2
      cases hf : findNodeLast nodes u with
      | none =>
        refine ih _ _ _ (D ++ [u]) hnd' hle' ?_ hsnd hsub
        intro v hv
        exact List.mem_append_left _ (hsD v hv)
      | some n =>
        obtain ⟨hnmem, hnid⟩ := findNodeLast_some nodes u n hf
        refine ih _ _ _ (D ++ [u]) hnd' hle' ?_ ?_ ?_
        · intro v hv
          rw [List.map_append, List.map_cons, List.map_nil, List.mem_append] at hv
          rcases hv with hv | hv
          · exact List.mem_append_left _ (hsD v hv)
          · rw [List.mem_singleton] at hv
            exact List.mem_append_right _ (by simp [hv, hnid])
        · rw [List.map_append, List.map_cons, List.map_nil, List.nodup_append]
          refine ⟨hsnd, List.nodup_singleton _, ?_⟩
          intro v hv hv2
          rw [List.mem_singleton] at hv2
          refine huD ?_
          rw [← hnid, ← hv2]
          exact hsD v hv
        · intro m hm
          rcases List.mem_append.mp hm with hm | hm
          · exact hsub m hm
          · rw [List.mem_singleton] at hm
            exact hm ▸ hnmem

/-- C10, confirmed.  For every node list and connection list — cyclic ones
and dangling connection endpoints included — `topologicalSort` returns a
list whose members all come from the input node list, with pairwise
distinct ids (so each node appears at most once); and on the concrete
cyclic graph `cycNodes`/`cycConns` it terminates normally, silently
omitting the two cycle members instead of failing. -/
theorem c10_toposort_safety :
    (∀ (nodes : List NodeData) (conns : List ConnectionData),
      (∀ n ∈ topologicalSort nodes conns, n ∈ nodes) ∧
        ((topologicalSort nodes conns).map (·.id)).Nodup)
    ∧ topologicalSort cycNodes cycConns = [exNode "d" "dataLoader"] := by
  refine ⟨fun nodes conns => ?_, by decide⟩
  rw [topologicalSort]
  refine kahn_safety nodes conns _ _ _ _ [] ?_ ?_ ?_ ?_ ?_
  · rw [List.nil_append]
    exact List.Nodup.filter _ (firstDedup_nodup _)
  · intro v hv
    rw [List.nil_append, initQueue, List.mem_filter, decide_eq_true_iff] at hv
    omega
  · intro v hv
    cases hv
  · exact List.nodup_nil
  · intro n hn
    cases hn

/-- C10 witness: the safety conclusions at the concrete cyclic graph. -/
theorem c10_toposort_safety_witness :
    (∀ n ∈ topologicalSort cycNodes cycConns, n ∈ cycNodes) ∧
      ((topologicalSort cycNodes cycConns).map (·.id)).Nodup :=
  c10_toposort_safety.1 cycNodes cycConns

/-! ## C4 — the schedule: counting and measure lemmas -/

/-- The distinct connection targets, the only ids whose degree ever
changes. -/
def targetsOf (conns : List ConnectionData) : List String :=
  firstDedup (conns.map (·.target))

/-- Number of target ids that still have positive in-degree: together with
the queue length this bounds the remaining loop iterations. -/
def degMeasure (conns : List ConnectionData) (deg : String → Int) : Nat :=
  ((targetsOf conns).filter (fun v => 1 ≤ deg v)).length

lemma count_map_target (l : List ConnectionData) (v : String) :
    (l.map (·.target)).count v = (l.filter (fun c => c.target = v)).length := by
  induction l with
  | nil => rfl
  | cons c cs ih =>
    by_cases h : c.target = v
    · simp [List.count_cons, List.filter_cons, h, ih]
    · simp [List.count_cons, List.filter_cons, h, ih]

lemma filter_length_split {α : Type} (l : List α) (p q : α → Bool) :
    (l.filter p).length =
      (l.filter (fun a => p a && q a)).length + (l.filter (fun a => p a && !q a)).length := by
  induction l with
  | nil => rfl
  | cons a as ih =>
    rw [List.filter_cons, List.filter_cons, List.filter_cons]
    cases hp : p a <;> cases hq : q a <;>
      simp [hp, hq, ih] <;> omega

lemma filter_length_mono {α : Type} (l : List α) (p q : α → Bool)
    (h : ∀ a ∈ l, p a = true → q a = true) :
    (l.filter p).length ≤ (l.filter q).length := by
  induction l with
  | nil => exact le_refl _
  | cons a as ih =>
    have ih' := ih (fun x hx => h x (List.mem_cons_of_mem _ hx))
    rw [List.filter_cons, List.filter_cons]
    cases hp : p a
    · rw [if_neg (by simp)]
      cases hq : q a
      · rw [if_neg (by simp)]
        exact ih'
      · rw [if_pos rfl, List.length_cons]
        exact le_trans ih' (Nat.le_succ _)
    · rw [if_pos rfl, h a (List.mem_cons_self _ _) hp, if_pos rfl, List.length_cons,
        List.length_cons]
      exact Nat.succ_le_succ ih'

lemma filter_length_lt {α : Type} [DecidableEq α] (T : List α) (hnd : T.Nodup)
    (p1 p : α → Bool) (hmono : ∀ x ∈ T, p1 x = true → p x = true)
    (w : α) (hw : w ∈ T) (hpw : p w = true) (hp1w : p1 w = false) :
    (T.filter p1).length + 1 ≤ (T.filter p).length := by
  induction T with
  | nil => cases hw
  | cons t ts ih =>
    rw [List.nodup_cons] at hnd
    have hmono' : ∀ x ∈ ts, p1 x = true → p x = true :=
      fun x hx => hmono x (List.mem_cons_of_mem _ hx)
    rw [List.filter_cons, List.filter_cons]
    rcases List.mem_cons.mp hw with he | hm
    · subst he
      rw [hp1w, if_neg (by simp), hpw, if_pos rfl, List.length_cons]
      exact Nat.succ_le_succ (filter_length_mono ts p1 p hmono')
    · cases hp1 : p1 t
      · rw [if_neg (by simp)]
        cases hpt : p t
        · rw [if_neg (by simp)]
          exact ih hnd.2 hmono' hm
        · rw [if_pos rfl, List.length_cons]
          exact le_trans (ih hnd.2 hmono' hm) (Nat.le_succ _)
      · rw [if_pos rfl, hmono t (List.mem_cons_self _ _) hp1, if_pos rfl, List.length_cons,
          List.length_cons]
        exact Nat.succ_le_succ (ih hnd.2 hmono' hm)

lemma relax_measure (conns : List ConnectionData) (vs : List String)
    (hsub : ∀ v ∈ vs, v ∈ targetsOf conns) :
    ∀ deg : String → Int,
      (relax deg vs).2.length + degMeasure conns (relax deg vs).1 ≤ degMeasure conns deg := by
  induction vs with
  | nil =>
    intro deg
    simp [relax]
  | cons w ws ih =>
    intro deg
    rw [relax]
    dsimp only
    have hsub' : ∀ v ∈ ws, v ∈ targetsOf conns :=
      fun v hv => hsub v (List.mem_cons_of_mem _ hv)
    have h1 := ih hsub' (updInt deg w (deg w - 1))
    by_cases hd : deg w - 1 = 0
    · rw [if_pos hd, List.length_cons]
      have h2 : degMeasure conns (updInt deg w (deg w - 1)) + 1 ≤ degMeasure conns deg := by
        rw [degMeasure, degMeasure]
        refine filter_length_lt (targetsOf conns) (firstDedup_nodup _) _ _ ?_ w
          (hsub w (List.mem_cons_self _ _)) (by simp; omega) (by simp [updInt]; omega)
        intro x _ hx
        rw [decide_eq_true_iff] at hx ⊢
        rw [updInt] at hx
        by_cases hxw : x = w
        · rw [if_pos hxw] at hx
          rw [hxw]
          omega
        · rwa [if_neg hxw] at hx
      omega
    · rw [if_neg hd]
      have h2 : degMeasure conns (updInt deg w (deg w - 1)) ≤ degMeasure conns deg := by
        rw [degMeasure, degMeasure]
        refine filter_length_mono _ _ _ ?_
        intro x _ hx
        rw [decide_eq_true_iff] at hx ⊢
        rw [updInt] at hx
        by_cases hxw : x = w
        · rw [if_pos hxw] at hx
          rw [hxw]
          omega
        · rwa [if_neg hxw] at hx
      omega

/-! ## C4 — the claimed declaration-order tie-break -/

/-- Position of the first node with id `v` in the declaration list. -/
def declIndex : List NodeData → String → Nat
  | [], _ => 0
  | n :: rest, v => if n.id = v then 0 else declIndex rest v + 1

/-- Remaining in-degree of `v` once the nodes with ids `done` have been
fully processed by the scheduler (each processed node removes its outgoing
connections). -/
def decAfter (nodes : List NodeData) (conns : List ConnectionData)
    (done : List String) (v : String) : Int :=
  deg0 conns v -
    ((conns.filter
      (fun c => c.target = v ∧ c.source ∈ done ∧ c.source ∈ nodeIds nodes)).length : Int)

/-- The tie-break policy as claimed: whenever a node `u` is emitted while
another node `v`, declared earlier, is also at zero in-degree and not yet
emitted, `u` must precede `v` in declaration order. -/
def DeclTieBreak (nodes : List NodeData) (conns : List ConnectionData) : Prop :=
  ∀ (p : List NodeData) (u : NodeData) (rest : List NodeData) (v : String),
    topologicalSort nodes conns = p ++ u :: rest →
    v ∈ nodeIds nodes → v ∉ p.map (·.id) → v ≠ u.id →
    decAfter nodes conns (p.map (·.id)) v = 0 →
    declIndex nodes u.id ≤ declIndex nodes v

def tbNodes : List NodeData :=
  [exNode "a" "dataLoader", exNode "b" "scaler", exNode "c" "scaler"]

def tbConns : List ConnectionData := [exConn "a" "c" "data", exConn "a" "b" "data"]

/-- C4, counterexample.  `tbNodes`/`tbConns` is acyclic, has distinct node
ids, and every connection endpoint exists — the claim's hypotheses hold —
yet the schedule is `a, c, b`: after `a` is processed, `b` and `c` are
simultaneously at zero in-degree and `c` (declared after `b`) is emitted
first.  The queue is FIFO over connection declaration order, not node
declaration order. -/
theorem c4_counterexample :
    ((nodeIds tbNodes).Nodup
      ∧ (∀ c ∈ tbConns, c.source ∈ nodeIds tbNodes ∧ c.target ∈ nodeIds tbNodes)
      ∧ IsAcyclic tbConns)
    ∧ (topologicalSort tbNodes tbConns).map (·.id) = ["a", "c", "b"]
    ∧ ¬ DeclTieBreak tbNodes tbConns := by
  refine ⟨⟨by decide, by decide,
    ⟨fun v => if v = "a" then 0 else 1, by decide⟩⟩, by decide, fun h => ?_⟩
  have := h [exNode "a" "dataLoader"] (exNode "c" "scaler") [exNode "b" "scaler"] "b"
    (by decide) (by decide) (by decide) (by decide) (by decide)
  exact absurd this (by decide)

/-! ## C4 — full correctness of the schedule on well-formed acyclic graphs -/

/-- Main invariant-carrying induction over the Kahn loop.  `emitted` is the
ghost list of already-emitted ids (equal to `sorted.map id`); `deg` always
equals the number of connections into `v` from not-yet-emitted sources. -/
lemma kahn_main (nodes : List NodeData) (conns : List ConnectionData)
    (Href : ∀ c ∈ conns, c.source ∈ nodeIds nodes ∧ c.target ∈ nodeIds nodes) :
    ∀ (fuel : Nat) (deg : String → Int) (queue : List String) (sorted : List NodeData)
      (emitted : List String),
      sorted.map (·.id) = emitted →
      (∀ n ∈ sorted, n ∈ nodes) →
      (∀ v ∈ emitted ++ queue, v ∈ nodeIds nodes) →
      (emitted ++ queue).Nodup →
      (∀ v, deg v =
        ((conns.filter (fun c => c.target = v ∧ c.source ∉ emitted)).length : Int)) →
      (∀ v ∈ emitted ++ queue, deg v = 0) →
      (∀ v ∈ nodeIds nodes, v ∉ emitted ++ queue → deg v ≠ 0) →
      queue.length + degMeasure conns deg < fuel →
      (∃ (extL : List NodeData) (more : List String),
          kahnLoopFuel nodes conns fuel deg queue sorted = sorted ++ extL ∧
          extL.map (·.id) = queue ++ more)
      ∧ (∀ n ∈ kahnLoopFuel nodes conns fuel deg queue sorted, n ∈ nodes)
      ∧ ((kahnLoopFuel nodes conns fuel deg queue sorted).map (·.id)).Nodup
      ∧ (∀ v ∈ nodeIds nodes,
          v ∉ (kahnLoopFuel nodes conns fuel deg queue sorted).map (·.id) →
          ∃ c ∈ conns, c.target = v ∧
            c.source ∉ (kahnLoopFuel nodes conns fuel deg queue sorted).map (·.id))
      ∧ (∀ c ∈ conns,
          c.target ∈ (kahnLoopFuel nodes conns fuel deg queue sorted).map (·.id) →
          c.target ∉ emitted →
          ∃ l₁ l₂, kahnLoopFuel nodes conns fuel deg queue sorted = l₁ ++ l₂ ∧
            c.source ∈ l₁.map (·.id) ∧ c.target ∈ l₂.map (·.id) ∧
            c.target ∉ l₁.map (·.id)) := by
  intro fuel
  induction fuel with
  | zero =>
    intro deg queue sorted emitted _ _ _ _ _ _ _ hfuel
    omega
  | succ f ih =>
    intro deg queue sorted emitted Hsorted Hsub Hmem Hnodup Hdeg Hzero Hcomp Hfuel
    cases queue with
    | nil =>
      rw [kahnLoopFuel_nil]
      refine ⟨⟨[], [], by simp, by simp⟩, Hsub, by rw [Hsorted]; simpa using Hnodup,
        ?_, ?_⟩
      · intro v hv hvo
        rw [Hsorted] at hvo
        have hdne := Hcomp v hv (by simpa using hvo)
        rw [Hdeg] at hdne
        have hpos : 0 <
            (conns.filter (fun c => c.target = v ∧ c.source ∉ emitted)).length := by
          omega
        rcases List.exists_mem_of_length_pos hpos with ⟨c, hc⟩
        rw [List.mem_filter, decide_eq_true_iff] at hc
        exact ⟨c, hc.1, hc.2.1, by rw [Hsorted]; exact hc.2.2⟩
      · intro c _ htgt hne
        rw [Hsorted] at htgt
        exact absurd htgt hne
    | cons u rest =>
      rw [kahnLoopFuel_cons]
      have huIds : u ∈ nodeIds nodes := Hmem u (by simp)
      obtain ⟨n, hf, hnmem, hnid⟩ := findNodeLast_mem_ids nodes u huIds
      rw [hf]
      have huE : u ∉ emitted := by
        rcases List.nodup_append.mp Hnodup with ⟨-, -, hdisj⟩
        intro hu
        exact hdisj hu (List.mem_cons_self _ _)
      have hAdef : adjOf nodes conns u =
          (conns.filter (fun c => c.source = u)).map (·.target) := by
        rw [adjOf, if_pos huIds]
      have hAmem : ∀ v ∈ adjOf nodes conns u, ∃ c ∈ conns, c.target = v ∧ c.source = u := by
        intro v hv
        rw [hAdef, List.mem_map] at hv
        rcases hv with ⟨c, hc, hcv⟩
        rw [List.mem_filter, decide_eq_true_iff] at hc
        exact ⟨c, hc.1, hcv, hc.2⟩
      have hAcount : ∀ v, (adjOf nodes conns u).count v =
          (conns.filter (fun c => c.target = v ∧ c.source = u)).length := by
        intro v
        rw [hAdef, count_map_target, List.filter_filter]
        congr 1
        refine List.filter_congr ?_
        intro c _
        by_cases h1 : c.target = v <;> by_cases h2 : c.source = u <;> simp [h1, h2]
      have Hdeg' : ∀ v, (relax deg (adjOf nodes conns u)).1 v =
          ((conns.filter
            (fun c => c.target = v ∧ c.source ∉ emitted ++ [u])).length : Int) := by
        intro v
        rw [relax_deg, Hdeg v, hAcount]
        have hsplit := filter_length_split conns
          (fun c => decide (c.target = v ∧ c.source ∉ emitted))
          (fun c => decide (c.source = u))
        have he1 : conns.filter
            (fun c => decide (c.target = v ∧ c.source ∉ emitted) &&
              decide (c.source = u)) =
            conns.filter (fun c => c.target = v ∧ c.source = u) := by
          refine List.filter_congr ?_
          intro c _
          by_cases h1 : c.target = v <;> by_cases h2 : c.source = u
          · have : c.source ∉ emitted := h2 ▸ huE
            simp [h1, h2, this, huE]
          · simp [h1, h2]
          · simp [h1, h2]
          · simp [h1, h2]
        have he2 : conns.filter
            (fun c => decide (c.target = v ∧ c.source ∉ emitted) &&
              !decide (c.source = u)) =
            conns.filter (fun c => c.target = v ∧ c.source ∉ emitted ++ [u]) := by
          refine List.filter_congr ?_
          intro c _
          by_cases h1 : c.target = v <;> by_cases h2 : c.source = u <;>
            by_cases h3 : c.source ∈ emitted <;>
            simp [h1, h2, h3]
        rw [he1, he2] at hsplit
        omega
      have hfresh : ∀ v ∈ (relax deg (adjOf nodes conns u)).2, v ∉ emitted ++ u :: rest := by
        intro v hv hmem
        have h1 := (relax_pushed_mem _ _ _ hv).2.1
        have := Hzero v hmem
        omega
      have Hsorted' : (sorted ++ [n]).map (·.id) = emitted ++ [u] := by
        rw [List.map_append, Hsorted, List.map_cons, List.map_nil, hnid]
      have Hsub' : ∀ m ∈ sorted ++ [n], m ∈ nodes := by
        intro m hm
        rcases List.mem_append.mp hm with hm | hm
        · exact Hsub m hm
        · rw [List.mem_singleton] at hm
          exact hm ▸ hnmem
      have Hmem' : ∀ v ∈ (emitted ++ [u]) ++ (rest ++ (relax deg (adjOf nodes conns u)).2),
          v ∈ nodeIds nodes := by
        intro v hv
        have hv' : v ∈ emitted ++ u :: rest ∨ v ∈ (relax deg (adjOf nodes conns u)).2 := by
          simp only [List.mem_append, List.mem_cons, List.mem_singleton] at hv ⊢
          tauto
        rcases hv' with hv' | hv'
        · exact Hmem v hv'
        · rcases hAmem v (relax_pushed_mem _ _ _ hv').1 with ⟨c, hc, hcv, -⟩
          exact hcv ▸ (Href c hc).2
      have Hnodup' :
          ((emitted ++ [u]) ++ (rest ++ (relax deg (adjOf nodes conns u)).2)).Nodup := by
        have heq : (emitted ++ [u]) ++ (rest ++ (relax deg (adjOf nodes conns u)).2) =
            (emitted ++ u :: rest) ++ (relax deg (adjOf nodes conns u)).2 := by simp
        rw [heq, List.nodup_append]
        exact ⟨Hnodup, relax_pushed_nodup _ _, fun v hv hv2 => hfresh v hv2 hv⟩
      have Hzero' : ∀ v ∈ (emitted ++ [u]) ++ (rest ++ (relax deg (adjOf nodes conns u)).2),
          (relax deg (adjOf nodes conns u)).1 v = 0 := by
        intro v hv
        have hge : (0 : Int) ≤ (relax deg (adjOf nodes conns u)).1 v := by
          rw [Hdeg' v]
          exact Int.ofNat_nonneg _
        have hv' : v ∈ emitted ++ u :: rest ∨ v ∈ (relax deg (adjOf nodes conns u)).2 := by
          simp only [List.mem_append, List.mem_cons, List.mem_singleton] at hv ⊢
          tauto
        rcases hv' with hv' | hv'
        · have := Hzero v hv'
          have := relax_deg_le (adjOf nodes conns u) deg v
          omega
        · have := (relax_pushed_mem _ _ _ hv').2.2
          omega
      have Hcomp' : ∀ v ∈ nodeIds nodes,
          v ∉ (emitted ++ [u]) ++ (rest ++ (relax deg (adjOf nodes conns u)).2) →
          (relax deg (adjOf nodes conns u)).1 v ≠ 0 := by
        intro v hv hvn heq0
        have hvold : v ∉ emitted ++ u :: rest := by
          intro hvo
          apply hvn
          simp only [List.mem_append, List.mem_cons, List.mem_singleton] at hvo ⊢
          tauto
        have hdne := Hcomp v hv hvold
        have hdge : (0 : Int) ≤ deg v := by
          rw [Hdeg]
          exact Int.ofNat_nonneg _
        by_cases hvA : v ∈ adjOf nodes conns u
        · have : v ∈ (relax deg (adjOf nodes conns u)).2 :=
            relax_pushed_of _ _ _ hvA (by omega) (by omega)
          exact hvn (by simp [this])
        · have hcz : (adjOf nodes conns u).count v = 0 := List.count_eq_zero.mpr hvA
          rw [relax_deg, hcz] at heq0
          simp at heq0
          exact hdne heq0
      have Hfuel' : (rest ++ (relax deg (adjOf nodes conns u)).2).length +
          degMeasure conns (relax deg (adjOf nodes conns u)).1 < f := by
        have hAsub : ∀ v ∈ adjOf nodes conns u, v ∈ targetsOf conns := by
          intro v hv
          rcases hAmem v hv with ⟨c, hc, hcv, -⟩
          rw [targetsOf, firstDedup_mem]
          exact hcv ▸ List.mem_map_of_mem _ hc
        have := relax_measure conns (adjOf nodes conns u) hAsub deg
        rw [List.length_append]
        rw [List.length_cons] at Hfuel
        omega
      obtain ⟨⟨extL, more, hout, hext⟩, hb, hc, hd, he⟩ :=
        ih (relax deg (adjOf nodes conns u)).1 (rest ++ (relax deg (adjOf nodes conns u)).2)
          (sorted ++ [n]) (emitted ++ [u]) Hsorted' Hsub' Hmem' Hnodup' Hdeg' Hzero' Hcomp'
          Hfuel'
      refine ⟨⟨n :: extL, (relax deg (adjOf nodes conns u)).2 ++ more, by
          rw [hout]; simp, by
          rw [List.map_cons, hext, hnid]; simp⟩, hb, hc, hd, ?_⟩
      intro c hcmem htgt hne
      by_cases hcu : c.target = u
      · have hsrc : c.source ∈ emitted := by
          by_contra hno
          have h0 := Hzero u (by simp)
          rw [Hdeg] at h0
          have : c ∈ conns.filter (fun c => c.target = u ∧ c.source ∉ emitted) := by
            rw [List.mem_filter, decide_eq_true_iff]
            exact ⟨hcmem, hcu, hno⟩
          rcases List.length_pos_of_mem this with hlen
          omega
        refine ⟨sorted, n :: extL, by rw [hout]; simp, ?_, ?_, ?_⟩
        · rw [Hsorted]
          exact hsrc
        · rw [List.map_cons, hnid, hcu]
          exact List.mem_cons_self _ _
        · rw [Hsorted, hcu]
          exact huE
      · have hne' : c.target ∉ emitted ++ [u] := by
          simp only [List.mem_append, List.mem_singleton]
          rintro (h | h)
          · exact hne h
          · exact hcu h
        exact he c hcmem htgt hne'

/-- C4, amended.  For every input with pairwise-distinct node ids, all
connection endpoints declared, and an acyclic connection relation,
`topologicalSort` returns a permutation of the node list in which every
connection's source node strictly precedes its target node; the nodes whose
in-degree is zero in the input graph come first, in node declaration order
(`initQueue`).  (Nodes becoming ready later are dequeued FIFO in the order
their last incoming connection was removed — connection declaration order —
not node declaration order, as `c4_counterexample` shows.) -/
theorem c4_amended (nodes : List NodeData) (conns : List ConnectionData)
    (Hnd : (nodeIds nodes).Nodup)
    (Href : ∀ c ∈ conns, c.source ∈ nodeIds nodes ∧ c.target ∈ nodeIds nodes)
    (Hacyc : IsAcyclic conns) :
    (topologicalSort nodes conns).Perm nodes
    ∧ (∀ c ∈ conns, ∃ l₁ l₂, topologicalSort nodes conns = l₁ ++ l₂ ∧
        c.source ∈ l₁.map (·.id) ∧ c.target ∈ l₂.map (·.id) ∧ c.target ∉ l₁.map (·.id))
    ∧ ((topologicalSort nodes conns).map (·.id)).take (initQueue nodes conns).length =
        initQueue nodes conns := by
  have hIQmem : ∀ v ∈ initQueue nodes conns, v ∈ nodeIds nodes := by
    intro v hv
    rw [initQueue, List.mem_filter] at hv
    exact (firstDedup_mem _ _).mp hv.1
  have hmain := kahn_main nodes conns Href (nodes.length + conns.length + 1) (deg0 conns)
    (initQueue nodes conns) [] []
    rfl
    (by intro n hn; cases hn)
    (by intro v hv; exact hIQmem v (by simpa using hv))
    (by rw [List.nil_append]; exact List.Nodup.filter _ (firstDedup_nodup _))
    (by
      intro v
      rw [deg0]
      have h : List.filter (fun c => decide (c.target = v ∧ c.source ∉ ([] : List String))) conns
          = List.filter (fun c => decide (c.target = v)) conns :=
        List.filter_congr (by intro c _; simp)
      rw [h])
    (by
      intro v hv
      rw [List.nil_append, initQueue, List.mem_filter, decide_eq_true_iff] at hv
      exact hv.2)
    (by
      intro v hv hvn
      rw [List.nil_append] at hvn
      intro h0
      apply hvn
      rw [initQueue, List.mem_filter, decide_eq_true_iff]
      exact ⟨(firstDedup_mem _ _).mpr hv, h0⟩)
    (by
      have h1 : (initQueue nodes conns).length ≤ nodes.length := by
        calc (initQueue nodes conns).length
            ≤ (firstDedup (nodeIds nodes)).length := List.length_filter_le _ _
          _ ≤ (nodeIds nodes).length := firstDedup_length_le _
          _ = nodes.length := List.length_map _ _
      have h2 : degMeasure conns (deg0 conns) ≤ conns.length := by
        calc degMeasure conns (deg0 conns)
            ≤ (targetsOf conns).length := List.length_filter_le _ _
          _ ≤ (conns.map (·.target)).length := firstDedup_length_le _
          _ = conns.length := List.length_map _ _
      omega)
  rw [topologicalSort] at *
  obtain ⟨⟨extL, more, hout, hext⟩, hb, hc, hd, he⟩ := hmain
  have hcov : ∀ v ∈ nodeIds nodes,
      v ∈ (kahnLoopFuel nodes conns (nodes.length + conns.length + 1) (deg0 conns)
        (initQueue nodes conns) []).map (·.id) := by
    intro v hv
    by_contra hvo
    obtain ⟨rank, hrank⟩ := Hacyc
    have hvU : v ∈ (nodeIds nodes).filter
        (fun w => w ∉ (kahnLoopFuel nodes conns (nodes.length + conns.length + 1)
          (deg0 conns) (initQueue nodes conns) []).map (·.id)) :=
      List.mem_filter.mpr ⟨hv, by simpa using hvo⟩
    obtain ⟨m, hm⟩ : ∃ m, m ∈ List.argmin rank ((nodeIds nodes).filter
        (fun w => w ∉ (kahnLoopFuel nodes conns (nodes.length + conns.length + 1)
          (deg0 conns) (initQueue nodes conns) []).map (·.id))) := by
      cases h : List.argmin rank ((nodeIds nodes).filter
          (fun w => w ∉ (kahnLoopFuel nodes conns (nodes.length + conns.length + 1)
            (deg0 conns) (initQueue nodes conns) []).map (·.id))) with
      | none =>
        rw [List.argmin_eq_none] at h
        rw [h] at hvU
        cases hvU
      | some m => exact ⟨m, rfl⟩
    have hmU := List.argmin_mem hm
    rcases List.mem_filter.mp hmU with ⟨hmids, hmno⟩
    rw [decide_eq_true_iff] at hmno
    rcases hd m hmids hmno with ⟨c, hcmem, hct, hcs⟩
    have hsrcU : c.source ∈ (nodeIds nodes).filter
        (fun w => w ∉ (kahnLoopFuel nodes conns (nodes.length + conns.length + 1)
          (deg0 conns) (initQueue nodes conns) []).map (·.id)) :=
      List.mem_filter.mpr ⟨(Href c hcmem).1, by simpa using hcs⟩
    exact List.not_lt_of_mem_argmin hsrcU hm (hct ▸ hrank c hcmem)
  refine ⟨?_, ?_, ?_⟩
  · have houtNodup : (kahnLoopFuel nodes conns (nodes.length + conns.length + 1)
        (deg0 conns) (initQueue nodes conns) []).Nodup := List.Nodup.of_map _ hc
    have hnodesNodup : nodes.Nodup := List.Nodup.of_map _ Hnd
    rw [List.perm_ext_iff_of_nodup houtNodup hnodesNodup]
    intro a
    constructor
    · intro ha
      exact hb a ha
    · intro ha
      have haid : a.id ∈ nodeIds nodes := List.mem_map_of_mem _ ha
      rcases List.mem_map.mp (hcov a.id haid) with ⟨m, hmout, hmid⟩
      have hma : m = a := List.inj_on_of_nodup_map Hnd (hb m hmout) ha hmid
      exact hma ▸ hmout
  · intro c hcmem
    exact he c hcmem (hcov c.target (Href c hcmem).2) (List.not_mem_nil _)
  · rw [hout, List.nil_append, hext]
    exact List.take_left _ _

def wfNodes : List NodeData := [exNode "d" "dataLoader", exNode "s" "scaler"]

def wfConns : List ConnectionData := [exConn "d" "s" "data"]

/-- C4 witness: the amended theorem at a two-node chain. -/
theorem c4_amended_witness :
    (topologicalSort wfNodes wfConns).Perm wfNodes
    ∧ (∀ c ∈ wfConns, ∃ l₁ l₂, topologicalSort wfNodes wfConns = l₁ ++ l₂ ∧
        c.source ∈ l₁.map (·.id) ∧ c.target ∈ l₂.map (·.id) ∧ c.target ∉ l₁.map (·.id))
    ∧ ((topologicalSort wfNodes wfConns).map (·.id)).take (initQueue wfNodes wfConns).length =
        initQueue wfNodes wfConns :=
  c4_amended wfNodes wfConns (by decide) (by decide)
    ⟨fun v => if v = "d" then 0 else 1, by decide⟩

end Pipeline
